import Mathlib

set_option maxRecDepth 10000

/-
  Verification of the Xen paravirtualized MMU core (arch/x86/xen/mmu.c):
  the sparse three-level phys-to-machine (p2m) translation tree, its
  parallel mfn mirror tree, the pagetable pin/unpin walk, and the
  pmd/pud/pgd entry setters.

  Modelling conventions:
  - 64-bit configuration (PAGE_SIZE 4096, sizeof(unsigned long) = 8,
    PAGETABLE_LEVELS = 4), so P2M_PER_PAGE = P2M_MID_PER_PAGE =
    P2M_TOP_PER_PAGE = 512.
  - Pages are identified by natural-number page ids; each kind of page
    (p2m leaf, p2m mid, p2m mid-mfn) lives in its own heap, a total
    function from page id to contents.  Page id 0 of each heap is the
    shared "missing" placeholder page (p2m_missing, p2m_mid_missing,
    p2m_mid_missing_mfn); dynamically allocated pages get ids >= 1 from
    a monotone counter.
  - virt_to_mfn is an abstract environment function from page ids to
    machine frame numbers, carried in a configuration record.
  - BUG()/BUG_ON() is modelled by returning none from an Option-valued
    function.
  - The XENFEAT_auto_translated_physmap feature is outside the model:
    the spec's scope is a paravirtualized guest that manages its own
    translations, for which the feature is off for the whole boot.
-/

def PAGE_SIZE : Nat := 4096

def P2M_PER_PAGE : Nat := PAGE_SIZE / 8

def P2M_MID_PER_PAGE : Nat := PAGE_SIZE / 8

def P2M_TOP_PER_PAGE : Nat := PAGE_SIZE / 8

def MAX_P2M_PFN : Nat := P2M_TOP_PER_PAGE * P2M_MID_PER_PAGE * P2M_PER_PAGE

/-- INVALID_P2M_ENTRY is (~0UL) on a 64-bit machine. -/
def INVALID_P2M_ENTRY : Nat := 2 ^ 64 - 1

/-- Page id of the shared p2m_missing leaf placeholder page. -/
def idMissing : Nat := 0

/-- Page id of the shared p2m_mid_missing mid placeholder page. -/
def idMidMissing : Nat := 0

/-- Page id of the shared p2m_mid_missing_mfn mirror placeholder page. -/
def idMidMissingMfn : Nat := 0

/-- Pointwise function update, used to model a single word store. -/
def upd {α : Type} (f : Nat → α) (i : Nat) (v : α) : Nat → α :=
  fun j => if j = i then v else f j

/-- Replace the whole contents of one page in a heap. -/
def updPage (h : Nat → Nat → Nat) (p : Nat) (c : Nat → Nat) : Nat → Nat → Nat :=
  fun q => if q = p then c else h q

/-- Store one word into one slot of one page of a heap. -/
def updEntry (h : Nat → Nat → Nat) (p i v : Nat) : Nat → Nat → Nat :=
  fun q => if q = p then upd (h p) i v else h q

/--
State of the p2m machinery.  leafH / midH / midMfnH are the heaps of
p2m leaf pages (mfn values), mid pages (leaf page ids) and mid-mfn
mirror pages (mfn values).  top, topMfn, topMfnP model the single-page
arrays p2m_top, p2m_top_mfn, p2m_top_mfn_p.  maxPfn is
xen_max_p2m_pfn.  nextPage is the allocator's next fresh page id,
allocTries counts alloc_p2m_page calls, freed records pages passed to
free_p2m_page.
-/
structure P2MState where
  leafH : Nat → Nat → Nat
  midH : Nat → Nat → Nat
  midMfnH : Nat → Nat → Nat
  top : Nat → Nat
  topMfn : Nat → Nat
  topMfnP : Nat → Nat
  maxPfn : Nat
  nextPage : Nat
  allocTries : Nat
  freed : List Nat

/--
Environment configuration: virtToMfn models virt_to_mfn on page ids
(the hypervisor-assigned machine frame of each page of the guest), and
allocOK tells whether the n-th call to alloc_p2m_page succeeds
(models GFP allocation failure).
-/
structure P2MCfg where
  virtToMfn : Nat → Nat
  allocOK : Nat → Bool

def p2m_top_index (pfn : Nat) : Nat := pfn / (P2M_MID_PER_PAGE * P2M_PER_PAGE)

def p2m_mid_index (pfn : Nat) : Nat := (pfn / P2M_PER_PAGE) % P2M_MID_PER_PAGE

def p2m_index (pfn : Nat) : Nat := pfn % P2M_PER_PAGE

/-- Lookup, from get_phys_to_machine: out-of-range pfns read INVALID,
otherwise the value in the covering leaf slot is returned.  The
function is pure: it takes the state and returns only a value, which
is the shallow form of "no side effects, no allocation". -/
def get_phys_to_machine (s : P2MState) (pfn : Nat) : Nat :=
  if MAX_P2M_PFN ≤ pfn then INVALID_P2M_ENTRY
  else
    s.leafH (s.midH (s.top (p2m_top_index pfn)) (p2m_mid_index pfn)) (p2m_index pfn)

/-- Direct store, from __set_phys_to_machine.  For an out-of-range pfn
the code does BUG_ON(mfn != INVALID_P2M_ENTRY) and returns true, which
is modelled as none (the BUG) when mfn is a real value.  In range, the
store fails (false, no write) when the covering leaf is the shared
missing placeholder and mfn is real, trivially succeeds (true, no
write) when the covering leaf is missing and mfn is INVALID, and
otherwise stores mfn into the leaf slot. -/
def __set_phys_to_machine (s : P2MState) (pfn mfn : Nat) : Option (Bool × P2MState) :=
  if MAX_P2M_PFN ≤ pfn then
    if mfn = INVALID_P2M_ENTRY then some (true, s) else none
  else
    let topidx := p2m_top_index pfn
    let mididx := p2m_mid_index pfn
    let idx := p2m_index pfn
    if s.midH (s.top topidx) mididx = idMissing then
      some (decide (mfn = INVALID_P2M_ENTRY), s)
    else
      some (true,
        { s with leafH := updEntry s.leafH (s.midH (s.top topidx) mididx) idx mfn })

/--
Structural invariant of every reachable p2m state: the two shared
missing placeholder pages keep their initial contents; every top/mid
slot holds either the appropriate missing placeholder id or a
dynamically allocated page id below the allocation counter; distinct
tree positions never share a dynamically allocated page (the tree is a
tree, not a dag); p2m_top_mfn mirrors virt_to_mfn of p2m_top_mfn_p;
and a missing mid pointer has a missing mirror pointer.
-/
structure P2MInv (cfg : P2MCfg) (s : P2MState) : Prop where
  missLeaf : ∀ i, s.leafH idMissing i = INVALID_P2M_ENTRY
  missMid : ∀ i, s.midH idMidMissing i = idMissing
  missMidMfn : ∀ i, s.midMfnH idMidMissingMfn i = cfg.virtToMfn idMissing
  topOk : ∀ t, s.top t = idMidMissing ∨ (1 ≤ s.top t ∧ s.top t < s.nextPage)
  midOk : ∀ t i, s.midH (s.top t) i = idMissing ∨
      (1 ≤ s.midH (s.top t) i ∧ s.midH (s.top t) i < s.nextPage)
  topMfnPOk : ∀ t, s.topMfnP t = idMidMissingMfn ∨
      (1 ≤ s.topMfnP t ∧ s.topMfnP t < s.nextPage)
  mfnSync : ∀ t, s.topMfn t = cfg.virtToMfn (s.topMfnP t)
  missSync : ∀ t, s.top t = idMidMissing → s.topMfnP t = idMidMissingMfn
  topInj : ∀ t t', s.top t ≠ idMidMissing → s.top t = s.top t' → t = t'
  leafInj : ∀ t i t' i', s.midH (s.top t) i ≠ idMissing →
      s.midH (s.top t) i = s.midH (s.top t') i' → t = t' ∧ i = i'
  topMfnPInj : ∀ t t', s.topMfnP t ≠ idMidMissingMfn → s.topMfnP t = s.topMfnP t' → t = t'
  nextPos : 1 ≤ s.nextPage

/--
Initial state: models the boot sequence
xen_build_dynamic_phys_to_machine + the first xen_build_mfn_list_list
pass with an empty domain-builder mfn list, i.e. every top slot points
at p2m_mid_missing, every entry of p2m_mid_missing points at
p2m_missing, every entry of p2m_missing is INVALID_P2M_ENTRY, and the
mirror arrays all point at p2m_mid_missing_mfn whose entries are
virt_to_mfn(p2m_missing).
-/
def initState (cfg : P2MCfg) (mx : Nat) : P2MState where
  leafH := fun _ _ => INVALID_P2M_ENTRY
  midH := fun _ _ => idMissing
  midMfnH := fun _ _ => cfg.virtToMfn idMissing
  top := fun _ => idMidMissing
  topMfn := fun _ => cfg.virtToMfn idMidMissingMfn
  topMfnP := fun _ => idMidMissingMfn
  maxPfn := mx
  nextPage := 1
  allocTries := 0
  freed := []

theorem initState_inv (cfg : P2MCfg) (mx : Nat) : P2MInv cfg (initState cfg mx) := by
  constructor <;> simp [initState, idMissing, idMidMissing, idMidMissingMfn]

theorem get_initState (cfg : P2MCfg) (mx pfn : Nat) :
    get_phys_to_machine (initState cfg mx) pfn = INVALID_P2M_ENTRY := by
  unfold get_phys_to_machine initState
  split <;> rfl

/-- Model of alloc_p2m_page: returns a fresh page id, or none when the
allocator fails this call (decided by cfg.allocOK on the call count). -/
def alloc_p2m_page (cfg : P2MCfg) (s : P2MState) : Option Nat × P2MState :=
  if cfg.allocOK s.allocTries then
    (some s.nextPage,
      { s with allocTries := s.allocTries + 1, nextPage := s.nextPage + 1 })
  else
    (none, { s with allocTries := s.allocTries + 1 })

/-- Model of free_p2m_page: the page id is recorded as freed (its heap
contents are retained, as the memory still exists). -/
def free_p2m_page (s : P2MState) (p : Nat) : P2MState :=
  { s with freed := p :: s.freed }

/--
Mid-level stage of alloc_p2m: if p2m_top[topidx] is p2m_mid_missing,
allocate a page, p2m_mid_init it, and install it with cmpxchg; on a
lost cmpxchg the new page is freed but the local variable mid keeps
pointing at it (exactly as in the source).  Returns
(continue?, local mid, state); continue? = false is the early
"return false" on allocation failure.
-/
def allocMidStage (cfg : P2MCfg) (s : P2MState) (topidx : Nat) :
    Bool × Nat × P2MState :=
  let mid := s.top topidx
  if mid = idMidMissing then
    match alloc_p2m_page cfg s with
    | (none, s1) => (false, mid, s1)
    | (some m, s1) =>
      let s2 := { s1 with midH := updPage s1.midH m (fun _ => idMissing) }
      if s2.top topidx = idMidMissing then
        (true, m, { s2 with top := upd s2.top topidx m })
      else
        (true, m, free_p2m_page s2 m)
  else
    (true, mid, s)

/--
Mid-mfn mirror stage of alloc_p2m: checks the
BUG_ON(virt_to_mfn(mid_mfn) != *top_mfn_p) assertion (none = BUG),
then if p2m_top_mfn_p[topidx] is p2m_mid_missing_mfn allocates a page,
p2m_mid_mfn_init's it, installs its mfn into p2m_top_mfn[topidx] by
cmpxchg and, on success, stores the page into p2m_top_mfn_p[topidx];
on a lost cmpxchg the page is freed but the local variable mid_mfn
keeps pointing at it (as in the source).
-/
def allocMidMfnStage (cfg : P2MCfg) (s : P2MState) (topidx : Nat) :
    Option (Bool × Nat × P2MState) :=
  let midMfn := s.topMfnP topidx
  if cfg.virtToMfn midMfn ≠ s.topMfn topidx then none
  else if midMfn = idMidMissingMfn then
    match alloc_p2m_page cfg s with
    | (none, s1) => some (false, midMfn, s1)
    | (some m, s1) =>
      let s2 := { s1 with midMfnH := updPage s1.midMfnH m (fun _ => cfg.virtToMfn idMissing) }
      let missing_mfn := cfg.virtToMfn idMidMissingMfn
      if s2.topMfn topidx = missing_mfn then
        some (true, m,
          { s2 with topMfn := upd s2.topMfn topidx (cfg.virtToMfn m),
                    topMfnP := upd s2.topMfnP topidx m })
      else
        some (true, m, free_p2m_page s2 m)
  else
    some (true, midMfn, s)

/--
Leaf stage of alloc_p2m: if p2m_top[topidx][mididx] (read through the
global tree) is p2m_missing, allocate a leaf, p2m_init it, and
cmpxchg it into mid[mididx] where mid is the LOCAL pointer from the
mid stage; on cmpxchg success the mirror entry mid_mfn[mididx] (also
through the LOCAL pointer) is set to virt_to_mfn of the new leaf.
-/
def allocLeafStage (cfg : P2MCfg) (s : P2MState) (topidx mididx midL midMfnL : Nat) :
    Bool × P2MState :=
  if s.midH (s.top topidx) mididx = idMissing then
    match alloc_p2m_page cfg s with
    | (none, s1) => (false, s1)
    | (some p, s1) =>
      let s2 := { s1 with leafH := updPage s1.leafH p (fun _ => INVALID_P2M_ENTRY) }
      if s2.midH midL mididx = idMissing then
        let s3 := { s2 with midH := updEntry s2.midH midL mididx p }
        (true, { s3 with midMfnH := updEntry s3.midMfnH midMfnL mididx (cfg.virtToMfn p) })
      else
        (true, free_p2m_page s2 p)
  else
    (true, s)

/-- Model of alloc_p2m.  The BUG_ON(pfn >= MAX_P2M_PFN) inside
p2m_top_index and the BUG_ON in the mirror stage are modelled as
none. -/
def alloc_p2m (cfg : P2MCfg) (s : P2MState) (pfn : Nat) : Option (Bool × P2MState) :=
  if MAX_P2M_PFN ≤ pfn then none
  else
    let topidx := p2m_top_index pfn
    let mididx := p2m_mid_index pfn
    match allocMidStage cfg s topidx with
    | (false, _, s1) => some (false, s1)
    | (true, midL, s1) =>
      match allocMidMfnStage cfg s1 topidx with
      | none => none
      | some (false, _, s2) => some (false, s2)
      | some (true, midMfnL, s2) =>
        match allocLeafStage cfg s2 topidx mididx midL midMfnL with
        | (false, s3) => some (false, s3)
        | (true, s3) => some (true, s3)

/-- Model of set_phys_to_machine: try the direct store; on failure
allocate the missing levels and retry. -/
def set_phys_to_machine (cfg : P2MCfg) (s : P2MState) (pfn mfn : Nat) :
    Option (Bool × P2MState) :=
  match __set_phys_to_machine s pfn mfn with
  | none => none
  | some (true, s1) => some (true, s1)
  | some (false, _) =>
    match alloc_p2m cfg s pfn with
    | none => none
    | some (false, s1) => some (false, s1)
    | some (true, s1) => __set_phys_to_machine s1 pfn mfn

/--
Mirror synchronization invariant (the "two trees stay structurally
synchronized" property): every allocated leaf page p2m_top[t][i] has
its mfn recorded in the mirror entry p2m_top_mfn_p[t][i], and the
covering mirror mid page exists.  Together with mfnSync of P2MInv
(p2m_top_mfn[t] = virt_to_mfn(p2m_top_mfn_p[t])) this is the claimed
synchronization.
-/
def MirrorSync (cfg : P2MCfg) (s : P2MState) : Prop :=
  ∀ t i, s.midH (s.top t) i ≠ idMissing →
    s.topMfnP t ≠ idMidMissingMfn ∧
    s.midMfnH (s.topMfnP t) i = cfg.virtToMfn (s.midH (s.top t) i)

theorem upd_self {α : Type} (f : Nat → α) (i : Nat) (v : α) : upd f i v i = v := by
  simp [upd]

theorem upd_other {α : Type} (f : Nat → α) (i : Nat) (v : α) (j : Nat) (h : j ≠ i) :
    upd f i v j = f j := by
  simp [upd, h]

theorem updPage_self (h : Nat → Nat → Nat) (p : Nat) (c : Nat → Nat) :
    updPage h p c p = c := by
  simp [updPage]

theorem updPage_other (h : Nat → Nat → Nat) (p : Nat) (c : Nat → Nat) (q : Nat)
    (hq : q ≠ p) : updPage h p c q = h q := by
  simp [updPage, hq]

theorem updEntry_self (h : Nat → Nat → Nat) (p i v : Nat) :
    updEntry h p i v p i = v := by
  simp [updEntry, upd]

theorem updEntry_same_page (h : Nat → Nat → Nat) (p i v j : Nat) (hj : j ≠ i) :
    updEntry h p i v p j = h p j := by
  simp [updEntry, upd, hj]

theorem updEntry_other_page (h : Nat → Nat → Nat) (p i v q : Nat) (hq : q ≠ p) :
    updEntry h p i v q = h q := by
  simp [updEntry, hq]

/-- Explicit result state of a successful fresh-mid installation. -/
def midInstallState (s : P2MState) (t : Nat) : P2MState :=
  { s with allocTries := s.allocTries + 1, nextPage := s.nextPage + 1,
           midH := updPage s.midH s.nextPage (fun _ => idMissing),
           top := upd s.top t s.nextPage }

/-- Explicit result state of a successful fresh-mid-mfn installation. -/
def midMfnInstallState (cfg : P2MCfg) (s : P2MState) (t : Nat) : P2MState :=
  { s with allocTries := s.allocTries + 1, nextPage := s.nextPage + 1,
           midMfnH := updPage s.midMfnH s.nextPage (fun _ => cfg.virtToMfn idMissing),
           topMfn := upd s.topMfn t (cfg.virtToMfn s.nextPage),
           topMfnP := upd s.topMfnP t s.nextPage }

/-- Explicit result state of a successful fresh-leaf installation. -/
def leafInstallState (cfg : P2MCfg) (s : P2MState) (t m : Nat) : P2MState :=
  { s with allocTries := s.allocTries + 1, nextPage := s.nextPage + 1,
           leafH := updPage s.leafH s.nextPage (fun _ => INVALID_P2M_ENTRY),
           midH := updEntry s.midH (s.top t) m s.nextPage,
           midMfnH := updEntry s.midMfnH (s.topMfnP t) m (cfg.virtToMfn s.nextPage) }

/-- Explicit result state of a failed alloc_p2m_page call. -/
def allocFailState (s : P2MState) : P2MState :=
  { s with allocTries := s.allocTries + 1 }

theorem allocMidStage_present (cfg : P2MCfg) (s : P2MState) (t : Nat)
    (h : s.top t ≠ idMidMissing) :
    allocMidStage cfg s t = (true, s.top t, s) := by
  simp [allocMidStage, h]

theorem allocMidStage_install (cfg : P2MCfg) (s : P2MState) (t : Nat)
    (h : s.top t = idMidMissing) (hok : cfg.allocOK s.allocTries = true) :
    allocMidStage cfg s t = (true, s.nextPage, midInstallState s t) := by
  simp only [allocMidStage, alloc_p2m_page, h, if_true, hok, if_pos]
  simp [midInstallState, h]

theorem allocMidStage_oom (cfg : P2MCfg) (s : P2MState) (t : Nat)
    (h : s.top t = idMidMissing) (hok : cfg.allocOK s.allocTries = false) :
    allocMidStage cfg s t = (false, s.top t, allocFailState s) := by
  simp [allocMidStage, alloc_p2m_page, h, hok, allocFailState]

theorem allocMidMfnStage_present (cfg : P2MCfg) (s : P2MState) (t : Nat)
    (hsync : s.topMfn t = cfg.virtToMfn (s.topMfnP t))
    (h : s.topMfnP t ≠ idMidMissingMfn) :
    allocMidMfnStage cfg s t = some (true, s.topMfnP t, s) := by
  simp [allocMidMfnStage, hsync, h]

theorem allocMidMfnStage_install (cfg : P2MCfg) (s : P2MState) (t : Nat)
    (hsync : s.topMfn t = cfg.virtToMfn (s.topMfnP t))
    (h : s.topMfnP t = idMidMissingMfn) (hok : cfg.allocOK s.allocTries = true) :
    allocMidMfnStage cfg s t =
      some (true, s.nextPage, midMfnInstallState cfg s t) := by
  simp only [allocMidMfnStage, hsync, h, ne_eq, not_true_eq_false, if_false,
    ite_not, alloc_p2m_page, hok, if_pos, if_true]
  simp [midMfnInstallState, hsync, h]

theorem allocMidMfnStage_oom (cfg : P2MCfg) (s : P2MState) (t : Nat)
    (hsync : s.topMfn t = cfg.virtToMfn (s.topMfnP t))
    (h : s.topMfnP t = idMidMissingMfn) (hok : cfg.allocOK s.allocTries = false) :
    allocMidMfnStage cfg s t = some (false, s.topMfnP t, allocFailState s) := by
  simp [allocMidMfnStage, alloc_p2m_page, hsync, h, hok, allocFailState]

theorem allocLeafStage_present (cfg : P2MCfg) (s : P2MState) (t m midL midMfnL : Nat)
    (h : s.midH (s.top t) m ≠ idMissing) :
    allocLeafStage cfg s t m midL midMfnL = (true, s) := by
  simp [allocLeafStage, h]

theorem allocLeafStage_install (cfg : P2MCfg) (s : P2MState) (t m midL midMfnL : Nat)
    (hL : midL = s.top t) (hM : midMfnL = s.topMfnP t)
    (h : s.midH (s.top t) m = idMissing) (hok : cfg.allocOK s.allocTries = true) :
    allocLeafStage cfg s t m midL midMfnL =
      (true, leafInstallState cfg s t m) := by
  subst hL
  subst hM
  simp only [allocLeafStage, h, if_true, alloc_p2m_page, hok, if_pos]
  simp [leafInstallState, h]

theorem allocLeafStage_oom (cfg : P2MCfg) (s : P2MState) (t m midL midMfnL : Nat)
    (h : s.midH (s.top t) m = idMissing) (hok : cfg.allocOK s.allocTries = false) :
    allocLeafStage cfg s t m midL midMfnL = (false, allocFailState s) := by
  simp [allocLeafStage, alloc_p2m_page, h, hok, allocFailState]

theorem idMissing_eq : idMissing = 0 := rfl

theorem idMidMissing_eq : idMidMissing = 0 := rfl

theorem idMidMissingMfn_eq : idMidMissingMfn = 0 := rfl

theorem top_ne_next (cfg : P2MCfg) (s : P2MState) (hinv : P2MInv cfg s) (t : Nat) :
    s.top t ≠ s.nextPage := by
  rcases hinv.topOk t with h | h
  · rw [h, idMidMissing_eq]; have := hinv.nextPos; omega
  · omega

theorem mid_ne_next (cfg : P2MCfg) (s : P2MState) (hinv : P2MInv cfg s) (t i : Nat) :
    s.midH (s.top t) i ≠ s.nextPage := by
  rcases hinv.midOk t i with h | h
  · rw [h, idMissing_eq]; have := hinv.nextPos; omega
  · omega

theorem topMfnP_ne_next (cfg : P2MCfg) (s : P2MState) (hinv : P2MInv cfg s) (t : Nat) :
    s.topMfnP t ≠ s.nextPage := by
  rcases hinv.topMfnPOk t with h | h
  · rw [h, idMidMissingMfn_eq]; have := hinv.nextPos; omega
  · omega


theorem midInstallState_leafH (s : P2MState) (t : Nat) :
    (midInstallState s t).leafH = s.leafH := rfl

theorem midInstallState_midH (s : P2MState) (t : Nat) :
    (midInstallState s t).midH = updPage s.midH s.nextPage (fun _ => idMissing) := rfl

theorem midInstallState_midMfnH (s : P2MState) (t : Nat) :
    (midInstallState s t).midMfnH = s.midMfnH := rfl

theorem midInstallState_top (s : P2MState) (t : Nat) :
    (midInstallState s t).top = upd s.top t s.nextPage := rfl

theorem midInstallState_topMfn (s : P2MState) (t : Nat) :
    (midInstallState s t).topMfn = s.topMfn := rfl

theorem midInstallState_topMfnP (s : P2MState) (t : Nat) :
    (midInstallState s t).topMfnP = s.topMfnP := rfl

theorem midInstallState_maxPfn (s : P2MState) (t : Nat) :
    (midInstallState s t).maxPfn = s.maxPfn := rfl

theorem midInstallState_nextPage (s : P2MState) (t : Nat) :
    (midInstallState s t).nextPage = s.nextPage + 1 := rfl

theorem midMfnInstallState_leafH (cfg : P2MCfg) (s : P2MState) (t : Nat) :
    (midMfnInstallState cfg s t).leafH = s.leafH := rfl

theorem midMfnInstallState_midH (cfg : P2MCfg) (s : P2MState) (t : Nat) :
    (midMfnInstallState cfg s t).midH = s.midH := rfl

theorem midMfnInstallState_midMfnH (cfg : P2MCfg) (s : P2MState) (t : Nat) :
    (midMfnInstallState cfg s t).midMfnH =
      updPage s.midMfnH s.nextPage (fun _ => cfg.virtToMfn idMissing) := rfl

theorem midMfnInstallState_top (cfg : P2MCfg) (s : P2MState) (t : Nat) :
    (midMfnInstallState cfg s t).top = s.top := rfl

theorem midMfnInstallState_topMfn (cfg : P2MCfg) (s : P2MState) (t : Nat) :
    (midMfnInstallState cfg s t).topMfn =
      upd s.topMfn t (cfg.virtToMfn s.nextPage) := rfl

theorem midMfnInstallState_topMfnP (cfg : P2MCfg) (s : P2MState) (t : Nat) :
    (midMfnInstallState cfg s t).topMfnP = upd s.topMfnP t s.nextPage := rfl

theorem midMfnInstallState_maxPfn (cfg : P2MCfg) (s : P2MState) (t : Nat) :
    (midMfnInstallState cfg s t).maxPfn = s.maxPfn := rfl

theorem midMfnInstallState_nextPage (cfg : P2MCfg) (s : P2MState) (t : Nat) :
    (midMfnInstallState cfg s t).nextPage = s.nextPage + 1 := rfl

theorem leafInstallState_leafH (cfg : P2MCfg) (s : P2MState) (t m : Nat) :
    (leafInstallState cfg s t m).leafH =
      updPage s.leafH s.nextPage (fun _ => INVALID_P2M_ENTRY) := rfl

theorem leafInstallState_midH (cfg : P2MCfg) (s : P2MState) (t m : Nat) :
    (leafInstallState cfg s t m).midH =
      updEntry s.midH (s.top t) m s.nextPage := rfl

theorem leafInstallState_midMfnH (cfg : P2MCfg) (s : P2MState) (t m : Nat) :
    (leafInstallState cfg s t m).midMfnH =
      updEntry s.midMfnH (s.topMfnP t) m (cfg.virtToMfn s.nextPage) := rfl

theorem leafInstallState_top (cfg : P2MCfg) (s : P2MState) (t m : Nat) :
    (leafInstallState cfg s t m).top = s.top := rfl

theorem leafInstallState_topMfn (cfg : P2MCfg) (s : P2MState) (t m : Nat) :
    (leafInstallState cfg s t m).topMfn = s.topMfn := rfl

theorem leafInstallState_topMfnP (cfg : P2MCfg) (s : P2MState) (t m : Nat) :
    (leafInstallState cfg s t m).topMfnP = s.topMfnP := rfl

theorem leafInstallState_maxPfn (cfg : P2MCfg) (s : P2MState) (t m : Nat) :
    (leafInstallState cfg s t m).maxPfn = s.maxPfn := rfl

theorem leafInstallState_nextPage (cfg : P2MCfg) (s : P2MState) (t m : Nat) :
    (leafInstallState cfg s t m).nextPage = s.nextPage + 1 := rfl

theorem allocFailState_leafH (s : P2MState) : (allocFailState s).leafH = s.leafH := rfl

theorem allocFailState_midH (s : P2MState) : (allocFailState s).midH = s.midH := rfl

theorem allocFailState_midMfnH (s : P2MState) :
    (allocFailState s).midMfnH = s.midMfnH := rfl

theorem allocFailState_top (s : P2MState) : (allocFailState s).top = s.top := rfl

theorem allocFailState_topMfn (s : P2MState) :
    (allocFailState s).topMfn = s.topMfn := rfl

theorem allocFailState_topMfnP (s : P2MState) :
    (allocFailState s).topMfnP = s.topMfnP := rfl

theorem allocFailState_maxPfn (s : P2MState) :
    (allocFailState s).maxPfn = s.maxPfn := rfl

theorem allocFailState_nextPage (s : P2MState) :
    (allocFailState s).nextPage = s.nextPage := rfl

theorem inv_allocFail (cfg : P2MCfg) (s : P2MState) (hinv : P2MInv cfg s) :
    P2MInv cfg (allocFailState s) := by
  obtain ⟨mL, mM, mMM, tOk, mOk, tPOk, mS, msS, tInj, lInj, tPInj, nP⟩ := hinv
  exact ⟨mL, mM, mMM, tOk, mOk, tPOk, mS, msS, tInj, lInj, tPInj, nP⟩

theorem inv_midInstall (cfg : P2MCfg) (s : P2MState) (t : Nat)
    (hinv : P2MInv cfg s) (ht : s.top t = idMidMissing) :
    P2MInv cfg (midInstallState s t) := by
  have hne := top_ne_next cfg s hinv
  have hnp := hinv.nextPos
  obtain ⟨mL, mM, mMM, tOk, mOk, tPOk, mS, msS, tInj, lInj, tPInj, _⟩ := hinv
  refine ⟨?_, ?_, ?_, ?_, ?_, ?_, ?_, ?_, ?_, ?_, ?_, ?_⟩ <;>
    simp only [midInstallState_leafH, midInstallState_midH, midInstallState_midMfnH,
      midInstallState_top, midInstallState_topMfn, midInstallState_topMfnP,
      midInstallState_nextPage]
  · exact mL
  · intro i
    rw [updPage_other _ _ _ _ (by rw [idMidMissing_eq]; omega)]
    exact mM i
  · exact mMM
  · intro t'
    by_cases h1 : t' = t
    · rw [h1, upd_self]; right; omega
    · rw [upd_other _ _ _ _ h1]
      rcases tOk t' with h | h
      · exact Or.inl h
      · right; omega
  · intro t' i
    by_cases h1 : t' = t
    · rw [h1, upd_self, updPage_self]; left; rfl
    · rw [upd_other _ _ _ _ h1, updPage_other _ _ _ _ (hne t')]
      rcases mOk t' i with h | h
      · exact Or.inl h
      · right; omega
  · intro t'
    rcases tPOk t' with h | h
    · exact Or.inl h
    · right; omega
  · exact mS
  · intro t' h1
    by_cases h2 : t' = t
    · rw [h2, upd_self, idMidMissing_eq] at h1
      omega
    · rw [upd_other _ _ _ _ h2] at h1
      exact msS t' h1
  · intro a b ha hab
    by_cases h1 : a = t
    · rw [h1, upd_self] at hab
      by_cases h2 : b = t
      · rw [h1, h2]
      · rw [upd_other _ _ _ _ h2] at hab
        exact absurd hab.symm (hne b)
    · rw [upd_other _ _ _ _ h1] at ha hab
      by_cases h2 : b = t
      · rw [h2, upd_self] at hab
        exact absurd hab (hne a)
      · rw [upd_other _ _ _ _ h2] at hab
        exact tInj a b ha hab
  · intro a i b j ha hab
    by_cases h1 : a = t
    · rw [h1, upd_self, updPage_self] at ha
      exact absurd rfl ha
    · rw [upd_other _ _ _ _ h1, updPage_other _ _ _ _ (hne a)] at ha hab
      by_cases h2 : b = t
      · rw [h2, upd_self, updPage_self] at hab
        exact absurd hab ha
      · rw [upd_other _ _ _ _ h2, updPage_other _ _ _ _ (hne b)] at hab
        exact lInj a i b j ha hab
  · exact tPInj
  · omega

theorem inv_midMfnInstall (cfg : P2MCfg) (s : P2MState) (t : Nat)
    (hinv : P2MInv cfg s) (htop : s.top t ≠ idMidMissing) :
    P2MInv cfg (midMfnInstallState cfg s t) := by
  have hne := topMfnP_ne_next cfg s hinv
  have hnp := hinv.nextPos
  obtain ⟨mL, mM, mMM, tOk, mOk, tPOk, mS, msS, tInj, lInj, tPInj, _⟩ := hinv
  refine ⟨?_, ?_, ?_, ?_, ?_, ?_, ?_, ?_, ?_, ?_, ?_, ?_⟩ <;>
    simp only [midMfnInstallState_leafH, midMfnInstallState_midH,
      midMfnInstallState_midMfnH, midMfnInstallState_top, midMfnInstallState_topMfn,
      midMfnInstallState_topMfnP, midMfnInstallState_nextPage]
  · exact mL
  · exact mM
  · intro i
    rw [updPage_other _ _ _ _ (by rw [idMidMissingMfn_eq]; omega)]
    exact mMM i
  · intro t'
    rcases tOk t' with h | h
    · exact Or.inl h
    · right; omega
  · intro t' i
    rcases mOk t' i with h | h
    · exact Or.inl h
    · right; omega
  · intro t'
    by_cases h1 : t' = t
    · rw [h1, upd_self]; right; omega
    · rw [upd_other _ _ _ _ h1]
      rcases tPOk t' with h | h
      · exact Or.inl h
      · right; omega
  · intro t'
    by_cases h1 : t' = t
    · rw [h1, upd_self, upd_self]
    · rw [upd_other _ _ _ _ h1, upd_other _ _ _ _ h1]
      exact mS t'
  · intro t' h1
    by_cases h2 : t' = t
    · rw [h2] at h1
      exact absurd h1 htop
    · rw [upd_other _ _ _ _ h2]
      exact msS t' h1
  · exact tInj
  · exact lInj
  · intro a b ha hab
    by_cases h1 : a = t
    · rw [h1, upd_self] at hab
      by_cases h2 : b = t
      · rw [h1, h2]
      · rw [upd_other _ _ _ _ h2] at hab
        exact absurd hab.symm (hne b)
    · rw [upd_other _ _ _ _ h1] at ha hab
      by_cases h2 : b = t
      · rw [h2, upd_self] at hab
        exact absurd hab (hne a)
      · rw [upd_other _ _ _ _ h2] at hab
        exact tPInj a b ha hab
  · omega

theorem inv_leafInstall (cfg : P2MCfg) (s : P2MState) (t m : Nat)
    (hinv : P2MInv cfg s) (ht : s.top t ≠ idMidMissing)
    (hP : s.topMfnP t ≠ idMidMissingMfn)
    (hm : s.midH (s.top t) m = idMissing) :
    P2MInv cfg (leafInstallState cfg s t m) := by
  have hneL := mid_ne_next cfg s hinv
  have hnp := hinv.nextPos
  obtain ⟨mL, mM, mMM, tOk, mOk, tPOk, mS, msS, tInj, lInj, tPInj, _⟩ := hinv
  have htop1 : 1 ≤ s.top t := by
    rcases tOk t with h | h
    · exact absurd h ht
    · omega
  have hP1 : 1 ≤ s.topMfnP t := by
    rcases tPOk t with h | h
    · exact absurd h hP
    · omega
  refine ⟨?_, ?_, ?_, ?_, ?_, ?_, ?_, ?_, ?_, ?_, ?_, ?_⟩ <;>
    simp only [leafInstallState_leafH, leafInstallState_midH, leafInstallState_midMfnH,
      leafInstallState_top, leafInstallState_topMfn, leafInstallState_topMfnP,
      leafInstallState_nextPage]
  · intro i
    rw [updPage_other _ _ _ _ (by rw [idMissing_eq]; omega)]
    exact mL i
  · intro i
    rw [updEntry_other_page _ _ _ _ _ (by rw [idMidMissing_eq]; omega)]
    exact mM i
  · intro i
    rw [updEntry_other_page _ _ _ _ _ (by rw [idMidMissingMfn_eq]; omega)]
    exact mMM i
  · intro t'
    rcases tOk t' with h | h
    · exact Or.inl h
    · right; omega
  · intro t' i
    by_cases h1 : s.top t' = s.top t
    · rw [h1]
      by_cases h2 : i = m
      · rw [h2, updEntry_self]; right; omega
      · rw [updEntry_same_page _ _ _ _ _ h2, ← h1]
        rcases mOk t' i with h | h
        · exact Or.inl h
        · right; omega
    · rw [updEntry_other_page _ _ _ _ _ h1]
      rcases mOk t' i with h | h
      · exact Or.inl h
      · right; omega
  · intro t'
    rcases tPOk t' with h | h
    · exact Or.inl h
    · right; omega
  · exact mS
  · exact msS
  · exact tInj
  · intro a i b j ha hab
    by_cases h1 : s.top a = s.top t
    · have ha' : a = t := tInj a t (by rw [h1]; exact ht) h1
      by_cases h2 : i = m
      · rw [h1, h2, updEntry_self] at hab
        by_cases h3 : s.top b = s.top t
        · have hb' : b = t := tInj b t (by rw [h3]; exact ht) h3
          by_cases h4 : j = m
          · exact ⟨ha'.trans hb'.symm, h2.trans h4.symm⟩
          · rw [h3, updEntry_same_page _ _ _ _ _ h4, ← h3] at hab
            exact absurd hab.symm (hneL b j)
        · rw [updEntry_other_page _ _ _ _ _ h3] at hab
          exact absurd hab.symm (hneL b j)
      · rw [h1, updEntry_same_page _ _ _ _ _ h2] at ha hab
        by_cases h3 : s.top b = s.top t
        · have hb' : b = t := tInj b t (by rw [h3]; exact ht) h3
          by_cases h4 : j = m
          · rw [h3, h4, updEntry_self] at hab
            exact absurd hab (hneL t i)
          · rw [h3, updEntry_same_page _ _ _ _ _ h4] at hab
            obtain ⟨-, hij⟩ := lInj t i t j ha hab
            exact ⟨ha'.trans hb'.symm, hij⟩
        · rw [updEntry_other_page _ _ _ _ _ h3] at hab
          rw [← h1] at ha hab
          exact lInj a i b j ha hab
    · rw [updEntry_other_page _ _ _ _ _ h1] at ha hab
      by_cases h3 : s.top b = s.top t
      · by_cases h4 : j = m
        · rw [h3, h4, updEntry_self] at hab
          exact absurd hab (hneL a i)
        · rw [h3, updEntry_same_page _ _ _ _ _ h4, ← h3] at hab
          exact lInj a i b j ha hab
      · rw [updEntry_other_page _ _ _ _ _ h3] at hab
        exact lInj a i b j ha hab
  · exact tPInj
  · omega

theorem P2M_PER_PAGE_eq : P2M_PER_PAGE = 512 := rfl

theorem MAX_P2M_PFN_eq : MAX_P2M_PFN = 134217728 := rfl

theorem p2m_top_index_eq (pfn : Nat) : p2m_top_index pfn = pfn / 262144 := rfl

theorem p2m_mid_index_eq (pfn : Nat) : p2m_mid_index pfn = (pfn / 512) % 512 := rfl

theorem p2m_index_eq (pfn : Nat) : p2m_index pfn = pfn % 512 := rfl

/-- The three-level index decomposition is injective: two pfns with the
same top, mid and leaf indices are equal. -/
theorem p2m_index_inj (q q' : Nat)
    (h1 : p2m_top_index q = p2m_top_index q')
    (h2 : p2m_mid_index q = p2m_mid_index q')
    (h3 : p2m_index q = p2m_index q') : q = q' := by
  simp only [p2m_top_index_eq] at h1
  simp only [p2m_mid_index_eq] at h2
  simp only [p2m_index_eq] at h3
  have e1 : q / 512 / 512 = q / 262144 := by
    rw [Nat.div_div_eq_div_mul]
  have e2 : q' / 512 / 512 = q' / 262144 := by
    rw [Nat.div_div_eq_div_mul]
  omega

theorem get_allocFail (s : P2MState) (q : Nat) :
    get_phys_to_machine (allocFailState s) q = get_phys_to_machine s q := rfl

theorem get_midMfnInstall (cfg : P2MCfg) (s : P2MState) (t q : Nat) :
    get_phys_to_machine (midMfnInstallState cfg s t) q = get_phys_to_machine s q := rfl

theorem get_midInstall (cfg : P2MCfg) (s : P2MState) (t : Nat)
    (hinv : P2MInv cfg s) (ht : s.top t = idMidMissing) (q : Nat) :
    get_phys_to_machine (midInstallState s t) q = get_phys_to_machine s q := by
  have hne := top_ne_next cfg s hinv
  unfold get_phys_to_machine
  by_cases hq : MAX_P2M_PFN ≤ q
  · rw [if_pos hq, if_pos hq]
  · rw [if_neg hq, if_neg hq]
    simp only [midInstallState_leafH, midInstallState_midH, midInstallState_top]
    by_cases h1 : p2m_top_index q = t
    · rw [h1, upd_self, updPage_self, ht]
      simp only [hinv.missMid, hinv.missLeaf]
    · rw [upd_other _ _ _ _ h1, updPage_other _ _ _ _ (hne (p2m_top_index q))]

theorem get_leafInstall (cfg : P2MCfg) (s : P2MState) (t m : Nat)
    (hinv : P2MInv cfg s) (ht : s.top t ≠ idMidMissing)
    (hm : s.midH (s.top t) m = idMissing) (q : Nat) :
    get_phys_to_machine (leafInstallState cfg s t m) q = get_phys_to_machine s q := by
  have hneL := mid_ne_next cfg s hinv
  unfold get_phys_to_machine
  by_cases hq : MAX_P2M_PFN ≤ q
  · rw [if_pos hq, if_pos hq]
  · rw [if_neg hq, if_neg hq]
    simp only [leafInstallState_leafH, leafInstallState_midH, leafInstallState_top]
    by_cases h1 : s.top (p2m_top_index q) = s.top t
    · rw [h1]
      by_cases h2 : p2m_mid_index q = m
      · rw [h2, updEntry_self, updPage_self, hm]
        rw [hinv.missLeaf]
      · rw [updEntry_same_page _ _ _ _ _ h2, ← h1,
          updPage_other _ _ _ _ (hneL (p2m_top_index q) (p2m_mid_index q))]
    · rw [updEntry_other_page _ _ _ _ _ h1,
        updPage_other _ _ _ _ (hneL (p2m_top_index q) (p2m_mid_index q))]

theorem ms_midInstall (cfg : P2MCfg) (s : P2MState) (t : Nat)
    (hinv : P2MInv cfg s) (ht : s.top t = idMidMissing)
    (hms : MirrorSync cfg s) : MirrorSync cfg (midInstallState s t) := by
  have hne := top_ne_next cfg s hinv
  intro t' i hmid
  simp only [midInstallState_midH, midInstallState_top, midInstallState_midMfnH,
    midInstallState_topMfnP] at hmid ⊢
  by_cases h1 : t' = t
  · rw [h1, upd_self, updPage_self] at hmid
    exact absurd rfl hmid
  · rw [upd_other _ _ _ _ h1, updPage_other _ _ _ _ (hne t')] at hmid ⊢
    exact hms t' i hmid

theorem ms_midMfnInstall (cfg : P2MCfg) (s : P2MState) (t : Nat)
    (hinv : P2MInv cfg s) (htP : s.topMfnP t = idMidMissingMfn)
    (hms : MirrorSync cfg s) : MirrorSync cfg (midMfnInstallState cfg s t) := by
  have hne := topMfnP_ne_next cfg s hinv
  have hnp := hinv.nextPos
  intro t' i hmid
  simp only [midMfnInstallState_midH, midMfnInstallState_top, midMfnInstallState_midMfnH,
    midMfnInstallState_topMfnP] at hmid ⊢
  by_cases h1 : t' = t
  · rw [h1] at hmid
    exact absurd htP (hms t i hmid).1
  · rw [upd_other _ _ _ _ h1]
    obtain ⟨hP, hval⟩ := hms t' i hmid
    refine ⟨hP, ?_⟩
    rw [updPage_other _ _ _ _ (hne t')]
    exact hval

theorem ms_leafInstall (cfg : P2MCfg) (s : P2MState) (t m : Nat)
    (hinv : P2MInv cfg s) (ht : s.top t ≠ idMidMissing)
    (hP : s.topMfnP t ≠ idMidMissingMfn)
    (hm : s.midH (s.top t) m = idMissing)
    (hms : MirrorSync cfg s) : MirrorSync cfg (leafInstallState cfg s t m) := by
  intro t' i hmid
  simp only [leafInstallState_midH, leafInstallState_top, leafInstallState_midMfnH,
    leafInstallState_topMfnP] at hmid ⊢
  by_cases h1 : s.top t' = s.top t
  · have ht' : t' = t := hinv.topInj t' t (by rw [h1]; exact ht) h1
    by_cases h2 : i = m
    · rw [ht', h2, updEntry_self, updEntry_self]
      exact ⟨hP, rfl⟩
    · rw [ht'] at hmid ⊢
      rw [updEntry_same_page _ _ _ _ _ h2] at hmid
      rw [updEntry_same_page _ _ _ _ _ h2, updEntry_same_page _ _ _ _ _ h2]
      exact hms t i hmid
  · rw [updEntry_other_page _ _ _ _ _ h1] at hmid
    rw [updEntry_other_page _ _ _ _ _ h1]
    obtain ⟨hPne, hval⟩ := hms t' i hmid
    have h3 : s.topMfnP t' ≠ s.topMfnP t := by
      intro hc
      exact h1 (by rw [hinv.topMfnPInj t' t hPne hc])
    rw [updEntry_other_page _ _ _ _ _ h3]
    exact ⟨hPne, hval⟩

/-- State written by the direct-store branch of __set_phys_to_machine. -/
def leafWriteState (s : P2MState) (pfn mfn : Nat) : P2MState :=
  { s with leafH := (updEntry s.leafH (s.midH (s.top (p2m_top_index pfn)) (p2m_mid_index pfn)) (p2m_index pfn) mfn) }

theorem leafWriteState_leafH (s : P2MState) (pfn mfn : Nat) :
    (leafWriteState s pfn mfn).leafH = updEntry s.leafH
      (s.midH (s.top (p2m_top_index pfn)) (p2m_mid_index pfn)) (p2m_index pfn) mfn := rfl

theorem leafWriteState_midH (s : P2MState) (pfn mfn : Nat) :
    (leafWriteState s pfn mfn).midH = s.midH := rfl

theorem leafWriteState_midMfnH (s : P2MState) (pfn mfn : Nat) :
    (leafWriteState s pfn mfn).midMfnH = s.midMfnH := rfl

theorem leafWriteState_top (s : P2MState) (pfn mfn : Nat) :
    (leafWriteState s pfn mfn).top = s.top := rfl

theorem leafWriteState_topMfn (s : P2MState) (pfn mfn : Nat) :
    (leafWriteState s pfn mfn).topMfn = s.topMfn := rfl

theorem leafWriteState_topMfnP (s : P2MState) (pfn mfn : Nat) :
    (leafWriteState s pfn mfn).topMfnP = s.topMfnP := rfl

theorem leafWriteState_maxPfn (s : P2MState) (pfn mfn : Nat) :
    (leafWriteState s pfn mfn).maxPfn = s.maxPfn := rfl

theorem leafWriteState_nextPage (s : P2MState) (pfn mfn : Nat) :
    (leafWriteState s pfn mfn).nextPage = s.nextPage := rfl

theorem set0_oob_ok (s : P2MState) (pfn : Nat) (h : MAX_P2M_PFN ≤ pfn) :
    __set_phys_to_machine s pfn INVALID_P2M_ENTRY = some (true, s) := by
  simp [__set_phys_to_machine, h]

theorem set0_oob_bug (s : P2MState) (pfn mfn : Nat) (h : MAX_P2M_PFN ≤ pfn)
    (hm : mfn ≠ INVALID_P2M_ENTRY) :
    __set_phys_to_machine s pfn mfn = none := by
  simp [__set_phys_to_machine, h, hm]

theorem set0_missing (s : P2MState) (pfn mfn : Nat) (h : pfn < MAX_P2M_PFN)
    (hmiss : s.midH (s.top (p2m_top_index pfn)) (p2m_mid_index pfn) = idMissing) :
    __set_phys_to_machine s pfn mfn = some (decide (mfn = INVALID_P2M_ENTRY), s) := by
  simp only [__set_phys_to_machine, not_le.mpr h, if_false, hmiss, if_pos, if_true]

theorem set0_write (s : P2MState) (pfn mfn : Nat) (h : pfn < MAX_P2M_PFN)
    (hpres : s.midH (s.top (p2m_top_index pfn)) (p2m_mid_index pfn) ≠ idMissing) :
    __set_phys_to_machine s pfn mfn = some (true, leafWriteState s pfn mfn) := by
  simp only [__set_phys_to_machine, not_le.mpr h, if_false, hpres, if_neg, if_true,
    leafWriteState]

theorem inv_leafWrite (cfg : P2MCfg) (s : P2MState) (pfn mfn : Nat)
    (hinv : P2MInv cfg s)
    (hpres : s.midH (s.top (p2m_top_index pfn)) (p2m_mid_index pfn) ≠ idMissing) :
    P2MInv cfg (leafWriteState s pfn mfn) := by
  have hpos : 1 ≤ s.midH (s.top (p2m_top_index pfn)) (p2m_mid_index pfn) := by
    rcases hinv.midOk (p2m_top_index pfn) (p2m_mid_index pfn) with h | h
    · exact absurd h hpres
    · omega
  obtain ⟨mL, mM, mMM, tOk, mOk, tPOk, mS, msS, tInj, lInj, tPInj, nP⟩ := hinv
  refine ⟨?_, ?_, ?_, ?_, ?_, ?_, ?_, ?_, ?_, ?_, ?_, ?_⟩ <;>
    simp only [leafWriteState_leafH, leafWriteState_midH, leafWriteState_midMfnH,
      leafWriteState_top, leafWriteState_topMfn, leafWriteState_topMfnP,
      leafWriteState_nextPage]
  · intro i
    rw [updEntry_other_page _ _ _ _ _ (by rw [idMissing_eq]; omega)]
    exact mL i
  · exact mM
  · exact mMM
  · exact tOk
  · exact mOk
  · exact tPOk
  · exact mS
  · exact msS
  · exact tInj
  · exact lInj
  · exact tPInj
  · exact nP

theorem ms_leafWrite (cfg : P2MCfg) (s : P2MState) (pfn mfn : Nat)
    (hms : MirrorSync cfg s) : MirrorSync cfg (leafWriteState s pfn mfn) := by
  intro t i hmid
  simp only [leafWriteState_midH, leafWriteState_top, leafWriteState_midMfnH,
    leafWriteState_topMfnP] at hmid ⊢
  exact hms t i hmid

theorem get_leafWrite_self (cfg : P2MCfg) (s : P2MState) (pfn mfn : Nat)
    (h : pfn < MAX_P2M_PFN) :
    get_phys_to_machine (leafWriteState s pfn mfn) pfn = mfn := by
  unfold get_phys_to_machine
  rw [if_neg (not_le.mpr h)]
  simp only [leafWriteState_leafH, leafWriteState_midH, leafWriteState_top]
  rw [updEntry_self]

theorem get_leafWrite_other (cfg : P2MCfg) (s : P2MState) (pfn mfn : Nat)
    (hinv : P2MInv cfg s)
    (hpres : s.midH (s.top (p2m_top_index pfn)) (p2m_mid_index pfn) ≠ idMissing)
    (q : Nat) (hq : q ≠ pfn) :
    get_phys_to_machine (leafWriteState s pfn mfn) q = get_phys_to_machine s q := by
  unfold get_phys_to_machine
  by_cases hle : MAX_P2M_PFN ≤ q
  · rw [if_pos hle, if_pos hle]
  · rw [if_neg hle, if_neg hle]
    simp only [leafWriteState_leafH, leafWriteState_midH, leafWriteState_top]
    by_cases h1 : s.midH (s.top (p2m_top_index q)) (p2m_mid_index q) =
        s.midH (s.top (p2m_top_index pfn)) (p2m_mid_index pfn)
    · obtain ⟨het, hem⟩ := hinv.leafInj (p2m_top_index q) (p2m_mid_index q)
        (p2m_top_index pfn) (p2m_mid_index pfn) (by rw [h1]; exact hpres) h1
      have hidx : p2m_index q ≠ p2m_index pfn := by
        intro hc
        exact hq (p2m_index_inj q pfn het hem hc)
      rw [h1, updEntry_same_page _ _ _ _ _ hidx]
    · rw [updEntry_other_page _ _ _ _ _ h1]

/-- Postcondition of alloc_p2m used by several claims: the invariant is
maintained, no translation visible through get_phys_to_machine changes,
mirror synchronization is preserved, and on success the covering leaf
is allocated. -/
def AllocPost (cfg : P2MCfg) (s : P2MState) (pfn : Nat) (b : Bool) (s2 : P2MState) : Prop :=
  P2MInv cfg s2 ∧
  (∀ q, get_phys_to_machine s2 q = get_phys_to_machine s q) ∧
  (MirrorSync cfg s → MirrorSync cfg s2) ∧
  (b = true → s2.midH (s2.top (p2m_top_index pfn)) (p2m_mid_index pfn) ≠ idMissing)

theorem alloc_p2m_spec (cfg : P2MCfg) (s : P2MState) (pfn : Nat)
    (hpfn : pfn < MAX_P2M_PFN) (hinv : P2MInv cfg s) :
    ∃ b s2, alloc_p2m cfg s pfn = some (b, s2) ∧ AllocPost cfg s pfn b s2 := by
  have hnle : ¬ MAX_P2M_PFN ≤ pfn := not_le.mpr hpfn
  have hnp := hinv.nextPos
  by_cases h1 : s.top (p2m_top_index pfn) = idMidMissing
  · by_cases hok1 : cfg.allocOK s.allocTries = true
    · -- the mid level is missing and its allocation succeeds
      have inv1 := inv_midInstall cfg s (p2m_top_index pfn) hinv h1
      have htop1 : (midInstallState s (p2m_top_index pfn)).top (p2m_top_index pfn) ≠ idMidMissing := by
        rw [midInstallState_top, upd_self, idMidMissing_eq]
        omega
      have hP1 : (midInstallState s (p2m_top_index pfn)).topMfnP (p2m_top_index pfn) = idMidMissingMfn := by
        rw [midInstallState_topMfnP]
        exact hinv.missSync _ h1
      by_cases hok2 : cfg.allocOK (midInstallState s (p2m_top_index pfn)).allocTries = true
      · -- the mirror mid level allocation also succeeds
        have inv2 := inv_midMfnInstall cfg (midInstallState s (p2m_top_index pfn)) (p2m_top_index pfn) inv1 htop1
        have hL2 : s.nextPage = (midMfnInstallState cfg (midInstallState s (p2m_top_index pfn)) (p2m_top_index pfn)).top (p2m_top_index pfn) := by
          rw [midMfnInstallState_top, midInstallState_top, upd_self]
        have hM2 : (midInstallState s (p2m_top_index pfn)).nextPage = (midMfnInstallState cfg (midInstallState s (p2m_top_index pfn)) (p2m_top_index pfn)).topMfnP (p2m_top_index pfn) := by
          rw [midMfnInstallState_topMfnP, upd_self]
        have hmiss2 : (midMfnInstallState cfg (midInstallState s (p2m_top_index pfn)) (p2m_top_index pfn)).midH ((midMfnInstallState cfg (midInstallState s (p2m_top_index pfn)) (p2m_top_index pfn)).top (p2m_top_index pfn)) (p2m_mid_index pfn) = idMissing := by
          rw [midMfnInstallState_midH, midMfnInstallState_top, midInstallState_midH, midInstallState_top, upd_self, updPage_self]
        have htop2 : (midMfnInstallState cfg (midInstallState s (p2m_top_index pfn)) (p2m_top_index pfn)).top (p2m_top_index pfn) ≠ idMidMissing := by
          rw [← hL2, idMidMissing_eq]
          omega
        have hP2 : (midMfnInstallState cfg (midInstallState s (p2m_top_index pfn)) (p2m_top_index pfn)).topMfnP (p2m_top_index pfn) ≠ idMidMissingMfn := by
          rw [← hM2, midInstallState_nextPage, idMidMissingMfn_eq]
          omega
        by_cases hok3 : cfg.allocOK (midMfnInstallState cfg (midInstallState s (p2m_top_index pfn)) (p2m_top_index pfn)).allocTries = true
        · refine ⟨true, leafInstallState cfg (midMfnInstallState cfg (midInstallState s (p2m_top_index pfn)) (p2m_top_index pfn)) (p2m_top_index pfn) (p2m_mid_index pfn), ?_, ?_, ?_, ?_, ?_⟩
          · simp only [alloc_p2m, if_neg hnle,
              allocMidStage_install cfg s (p2m_top_index pfn) h1 hok1,
              allocMidMfnStage_install cfg (midInstallState s (p2m_top_index pfn)) (p2m_top_index pfn) (inv1.mfnSync _) hP1 hok2,
              allocLeafStage_install cfg (midMfnInstallState cfg (midInstallState s (p2m_top_index pfn)) (p2m_top_index pfn)) (p2m_top_index pfn) (p2m_mid_index pfn) _ _ hL2 hM2 hmiss2 hok3]
          · exact inv_leafInstall cfg _ (p2m_top_index pfn) (p2m_mid_index pfn) inv2 htop2 hP2 hmiss2
          · intro q
            rw [get_leafInstall cfg _ (p2m_top_index pfn) (p2m_mid_index pfn) inv2 htop2 hmiss2 q,
              get_midMfnInstall cfg (midInstallState s (p2m_top_index pfn)) (p2m_top_index pfn) q,
              get_midInstall cfg s (p2m_top_index pfn) hinv h1 q]
          · intro hms
            exact ms_leafInstall cfg _ (p2m_top_index pfn) (p2m_mid_index pfn) inv2 htop2 hP2 hmiss2
              (ms_midMfnInstall cfg (midInstallState s (p2m_top_index pfn)) (p2m_top_index pfn) inv1 hP1
                (ms_midInstall cfg s (p2m_top_index pfn) hinv h1 hms))
          · intro _
            rw [leafInstallState_top, leafInstallState_midH, updEntry_self,
              midMfnInstallState_nextPage, midInstallState_nextPage, idMissing_eq]
            omega
        · rw [Bool.not_eq_true] at hok3
          refine ⟨false, allocFailState (midMfnInstallState cfg (midInstallState s (p2m_top_index pfn)) (p2m_top_index pfn)), ?_, ?_, ?_, ?_, ?_⟩
          · simp only [alloc_p2m, if_neg hnle,
              allocMidStage_install cfg s (p2m_top_index pfn) h1 hok1,
              allocMidMfnStage_install cfg (midInstallState s (p2m_top_index pfn)) (p2m_top_index pfn) (inv1.mfnSync _) hP1 hok2,
              allocLeafStage_oom cfg (midMfnInstallState cfg (midInstallState s (p2m_top_index pfn)) (p2m_top_index pfn)) (p2m_top_index pfn) (p2m_mid_index pfn) _ _ hmiss2 hok3]
          · exact inv_allocFail cfg _ inv2
          · intro q
            rw [get_allocFail, get_midMfnInstall cfg (midInstallState s (p2m_top_index pfn)) (p2m_top_index pfn) q,
              get_midInstall cfg s (p2m_top_index pfn) hinv h1 q]
          · intro hms
            exact ms_midMfnInstall cfg (midInstallState s (p2m_top_index pfn)) (p2m_top_index pfn) inv1 hP1
              (ms_midInstall cfg s (p2m_top_index pfn) hinv h1 hms)
          · intro h
            exact absurd h (by decide)
      · rw [Bool.not_eq_true] at hok2
        refine ⟨false, allocFailState (midInstallState s (p2m_top_index pfn)), ?_, ?_, ?_, ?_, ?_⟩
        · simp only [alloc_p2m, if_neg hnle,
            allocMidStage_install cfg s (p2m_top_index pfn) h1 hok1,
            allocMidMfnStage_oom cfg (midInstallState s (p2m_top_index pfn)) (p2m_top_index pfn) (inv1.mfnSync _) hP1 hok2]
        · exact inv_allocFail cfg _ inv1
        · intro q
          rw [get_allocFail, get_midInstall cfg s (p2m_top_index pfn) hinv h1 q]
        · intro hms
          exact ms_midInstall cfg s (p2m_top_index pfn) hinv h1 hms
        · intro h
          exact absurd h (by decide)
    · rw [Bool.not_eq_true] at hok1
      refine ⟨false, allocFailState s, ?_, ?_, ?_, ?_, ?_⟩
      · simp only [alloc_p2m, if_neg hnle,
          allocMidStage_oom cfg s (p2m_top_index pfn) h1 hok1]
      · exact inv_allocFail cfg s hinv
      · intro q
        rw [get_allocFail]
      · intro hms
        exact hms
      · intro h
        exact absurd h (by decide)
  · -- the mid level is already present
    by_cases hPm : s.topMfnP (p2m_top_index pfn) = idMidMissingMfn
    · by_cases hok2 : cfg.allocOK s.allocTries = true
      · have inv2 := inv_midMfnInstall cfg s (p2m_top_index pfn) hinv h1
        have hL : s.top (p2m_top_index pfn) = (midMfnInstallState cfg s (p2m_top_index pfn)).top (p2m_top_index pfn) := by
          rw [midMfnInstallState_top]
        have hM : s.nextPage = (midMfnInstallState cfg s (p2m_top_index pfn)).topMfnP (p2m_top_index pfn) := by
          rw [midMfnInstallState_topMfnP, upd_self]
        have htop2 : (midMfnInstallState cfg s (p2m_top_index pfn)).top (p2m_top_index pfn) ≠ idMidMissing := by
          rw [← hL]
          exact h1
        have hP2 : (midMfnInstallState cfg s (p2m_top_index pfn)).topMfnP (p2m_top_index pfn) ≠ idMidMissingMfn := by
          rw [← hM, idMidMissingMfn_eq]
          omega
        by_cases hleaf : (midMfnInstallState cfg s (p2m_top_index pfn)).midH ((midMfnInstallState cfg s (p2m_top_index pfn)).top (p2m_top_index pfn)) (p2m_mid_index pfn) = idMissing
        · by_cases hok3 : cfg.allocOK (midMfnInstallState cfg s (p2m_top_index pfn)).allocTries = true
          · refine ⟨true, leafInstallState cfg (midMfnInstallState cfg s (p2m_top_index pfn)) (p2m_top_index pfn) (p2m_mid_index pfn), ?_, ?_, ?_, ?_, ?_⟩
            · simp only [alloc_p2m, if_neg hnle,
                allocMidStage_present cfg s (p2m_top_index pfn) h1,
                allocMidMfnStage_install cfg s (p2m_top_index pfn) (hinv.mfnSync _) hPm hok2,
                allocLeafStage_install cfg (midMfnInstallState cfg s (p2m_top_index pfn)) (p2m_top_index pfn) (p2m_mid_index pfn) _ _ hL hM hleaf hok3]
            · exact inv_leafInstall cfg _ (p2m_top_index pfn) (p2m_mid_index pfn) inv2 htop2 hP2 hleaf
            · intro q
              rw [get_leafInstall cfg _ (p2m_top_index pfn) (p2m_mid_index pfn) inv2 htop2 hleaf q,
                get_midMfnInstall cfg s (p2m_top_index pfn) q]
            · intro hms
              exact ms_leafInstall cfg _ (p2m_top_index pfn) (p2m_mid_index pfn) inv2 htop2 hP2 hleaf
                (ms_midMfnInstall cfg s (p2m_top_index pfn) hinv hPm hms)
            · intro _
              rw [leafInstallState_top, leafInstallState_midH, updEntry_self,
                midMfnInstallState_nextPage, idMissing_eq]
              omega
          · rw [Bool.not_eq_true] at hok3
            refine ⟨false, allocFailState (midMfnInstallState cfg s (p2m_top_index pfn)), ?_, ?_, ?_, ?_, ?_⟩
            · simp only [alloc_p2m, if_neg hnle,
                allocMidStage_present cfg s (p2m_top_index pfn) h1,
                allocMidMfnStage_install cfg s (p2m_top_index pfn) (hinv.mfnSync _) hPm hok2,
                allocLeafStage_oom cfg (midMfnInstallState cfg s (p2m_top_index pfn)) (p2m_top_index pfn) (p2m_mid_index pfn) _ _ hleaf hok3]
            · exact inv_allocFail cfg _ inv2
            · intro q
              rw [get_allocFail, get_midMfnInstall cfg s (p2m_top_index pfn) q]
            · intro hms
              exact ms_midMfnInstall cfg s (p2m_top_index pfn) hinv hPm hms
            · intro h
              exact absurd h (by decide)
        · refine ⟨true, midMfnInstallState cfg s (p2m_top_index pfn), ?_, ?_, ?_, ?_, ?_⟩
          · simp only [alloc_p2m, if_neg hnle,
              allocMidStage_present cfg s (p2m_top_index pfn) h1,
              allocMidMfnStage_install cfg s (p2m_top_index pfn) (hinv.mfnSync _) hPm hok2,
              allocLeafStage_present cfg (midMfnInstallState cfg s (p2m_top_index pfn)) (p2m_top_index pfn) (p2m_mid_index pfn) _ _ hleaf]
          · exact inv2
          · intro q
            rw [get_midMfnInstall cfg s (p2m_top_index pfn) q]
          · intro hms
            exact ms_midMfnInstall cfg s (p2m_top_index pfn) hinv hPm hms
          · intro _
            exact hleaf
      · rw [Bool.not_eq_true] at hok2
        refine ⟨false, allocFailState s, ?_, ?_, ?_, ?_, ?_⟩
        · simp only [alloc_p2m, if_neg hnle,
            allocMidStage_present cfg s (p2m_top_index pfn) h1,
            allocMidMfnStage_oom cfg s (p2m_top_index pfn) (hinv.mfnSync _) hPm hok2]
        · exact inv_allocFail cfg s hinv
        · intro q
          rw [get_allocFail]
        · intro hms
          exact hms
        · intro h
          exact absurd h (by decide)
    · by_cases hleaf : s.midH (s.top (p2m_top_index pfn)) (p2m_mid_index pfn) = idMissing
      · by_cases hok3 : cfg.allocOK s.allocTries = true
        · refine ⟨true, leafInstallState cfg s (p2m_top_index pfn) (p2m_mid_index pfn), ?_, ?_, ?_, ?_, ?_⟩
          · simp only [alloc_p2m, if_neg hnle,
              allocMidStage_present cfg s (p2m_top_index pfn) h1,
              allocMidMfnStage_present cfg s (p2m_top_index pfn) (hinv.mfnSync _) hPm,
              allocLeafStage_install cfg s (p2m_top_index pfn) (p2m_mid_index pfn) _ _ rfl rfl hleaf hok3]
          · exact inv_leafInstall cfg s (p2m_top_index pfn) (p2m_mid_index pfn) hinv h1 hPm hleaf
          · intro q
            exact get_leafInstall cfg s (p2m_top_index pfn) (p2m_mid_index pfn) hinv h1 hleaf q
          · intro hms
            exact ms_leafInstall cfg s (p2m_top_index pfn) (p2m_mid_index pfn) hinv h1 hPm hleaf hms
          · intro _
            rw [leafInstallState_top, leafInstallState_midH, updEntry_self, idMissing_eq]
            omega
        · rw [Bool.not_eq_true] at hok3
          refine ⟨false, allocFailState s, ?_, ?_, ?_, ?_, ?_⟩
          · simp only [alloc_p2m, if_neg hnle,
              allocMidStage_present cfg s (p2m_top_index pfn) h1,
              allocMidMfnStage_present cfg s (p2m_top_index pfn) (hinv.mfnSync _) hPm,
              allocLeafStage_oom cfg s (p2m_top_index pfn) (p2m_mid_index pfn) _ _ hleaf hok3]
          · exact inv_allocFail cfg s hinv
          · intro q
            rw [get_allocFail]
          · intro hms
            exact hms
          · intro h
            exact absurd h (by decide)
      · refine ⟨true, s, ?_, ?_, ?_, ?_, ?_⟩
        · simp only [alloc_p2m, if_neg hnle,
            allocMidStage_present cfg s (p2m_top_index pfn) h1,
            allocMidMfnStage_present cfg s (p2m_top_index pfn) (hinv.mfnSync _) hPm,
            allocLeafStage_present cfg s (p2m_top_index pfn) (p2m_mid_index pfn) _ _ hleaf]
        · exact hinv
        · intro q
          rfl
        · intro hms
          exact hms
        · intro _
          exact hleaf

theorem get_of_leaf_missing (cfg : P2MCfg) (s : P2MState) (pfn : Nat)
    (hinv : P2MInv cfg s) (hpfn : pfn < MAX_P2M_PFN)
    (hmiss : s.midH (s.top (p2m_top_index pfn)) (p2m_mid_index pfn) = idMissing) :
    get_phys_to_machine s pfn = INVALID_P2M_ENTRY := by
  unfold get_phys_to_machine
  rw [if_neg (not_le.mpr hpfn), hmiss, hinv.missLeaf]

/-- Full functional specification of set_phys_to_machine on an
in-range pfn from an invariant state: it never hits a BUG, preserves
the invariant and the mirror synchronization, on success the stored
value is readable back, and no other pfn's translation changes. -/
theorem set_phys_to_machine_spec (cfg : P2MCfg) (s : P2MState) (pfn mfn : Nat)
    (hpfn : pfn < MAX_P2M_PFN) (hinv : P2MInv cfg s) :
    ∃ b s2, set_phys_to_machine cfg s pfn mfn = some (b, s2) ∧ P2MInv cfg s2 ∧
      (MirrorSync cfg s → MirrorSync cfg s2) ∧
      (b = true → get_phys_to_machine s2 pfn = mfn) ∧
      (∀ q, q ≠ pfn → get_phys_to_machine s2 q = get_phys_to_machine s q) := by
  by_cases hpres : s.midH (s.top (p2m_top_index pfn)) (p2m_mid_index pfn) = idMissing
  · by_cases hmfn : mfn = INVALID_P2M_ENTRY
    · subst hmfn
      have hd : decide (INVALID_P2M_ENTRY = INVALID_P2M_ENTRY) = true := by decide
      refine ⟨true, s, ?_, hinv, fun hms => hms, ?_, fun q _ => rfl⟩
      · simp only [set_phys_to_machine,
          set0_missing s pfn INVALID_P2M_ENTRY hpfn hpres, hd]
        rfl
      · intro _
        exact get_of_leaf_missing cfg s pfn hinv hpfn hpres
    · obtain ⟨b1, s1, heq, hinv1, hget1, hms1, hleaf1⟩ := alloc_p2m_spec cfg s pfn hpfn hinv
      rcases b1 with _ | _
      · refine ⟨false, s1, ?_, hinv1, hms1, ?_, ?_⟩
        · simp only [set_phys_to_machine, set0_missing s pfn mfn hpfn hpres,
            decide_eq_false hmfn, heq]
        · intro h
          exact absurd h (by decide)
        · intro q _
          exact hget1 q
      · have hpres1 := hleaf1 rfl
        refine ⟨true, leafWriteState s1 pfn mfn, ?_, ?_, ?_, ?_, ?_⟩
        · simp only [set_phys_to_machine, set0_missing s pfn mfn hpfn hpres,
            decide_eq_false hmfn, heq, set0_write s1 pfn mfn hpfn hpres1]
        · exact inv_leafWrite cfg s1 pfn mfn hinv1 hpres1
        · intro hms
          exact ms_leafWrite cfg s1 pfn mfn (hms1 hms)
        · intro _
          exact get_leafWrite_self cfg s1 pfn mfn hpfn
        · intro q hq
          rw [get_leafWrite_other cfg s1 pfn mfn hinv1 hpres1 q hq]
          exact hget1 q
  · refine ⟨true, leafWriteState s pfn mfn, ?_, ?_, ?_, ?_, ?_⟩
    · simp only [set_phys_to_machine, set0_write s pfn mfn hpfn hpres]
    · exact inv_leafWrite cfg s pfn mfn hinv hpres
    · intro hms
      exact ms_leafWrite cfg s pfn mfn hms
    · intro _
      exact get_leafWrite_self cfg s pfn mfn hpfn
    · intro q hq
      exact get_leafWrite_other cfg s pfn mfn hinv hpres q hq

/-- One call of the p2m interface, for stating properties of arbitrary
call sequences.  getOp has no effect on the state (lookup is pure). -/
inductive P2MOp where
  | getOp (pfn : Nat)
  | rawSet (pfn mfn : Nat)
  | setOp (pfn mfn : Nat)
  | allocOp (pfn : Nat)

/-- Whether an operation is a store targeted at lfn. -/
def opTouches (op : P2MOp) (lfn : Nat) : Bool :=
  match op with
  | .getOp _ => false
  | .rawSet p _ => decide (p = lfn)
  | .setOp p _ => decide (p = lfn)
  | .allocOp _ => false

def applyOp (cfg : P2MCfg) (s : P2MState) : P2MOp → Option P2MState
  | .getOp _ => some s
  | .rawSet p v => (__set_phys_to_machine s p v).map Prod.snd
  | .setOp p v => (set_phys_to_machine cfg s p v).map Prod.snd
  | .allocOp p => (alloc_p2m cfg s p).map Prod.snd

def runOps (cfg : P2MCfg) (s : P2MState) : List P2MOp → Option P2MState
  | [] => some s
  | op :: rest =>
    match applyOp cfg s op with
    | none => none
    | some s2 => runOps cfg s2 rest

theorem applyOp_spec (cfg : P2MCfg) (s : P2MState) (op : P2MOp) (s2 : P2MState)
    (hinv : P2MInv cfg s) (h : applyOp cfg s op = some s2) :
    P2MInv cfg s2 ∧ (MirrorSync cfg s → MirrorSync cfg s2) ∧
      ∀ lfn, opTouches op lfn = false → get_phys_to_machine s2 lfn = get_phys_to_machine s lfn := by
  cases op with
  | getOp pfn =>
    simp only [applyOp, Option.some.injEq] at h
    subst h
    exact ⟨hinv, fun hms => hms, fun lfn _ => rfl⟩
  | rawSet p v =>
    by_cases hp : p < MAX_P2M_PFN
    · by_cases hmiss : s.midH (s.top (p2m_top_index p)) (p2m_mid_index p) = idMissing
      · rw [applyOp, set0_missing s p v hp hmiss] at h
        simp only [Option.map_some', Option.some.injEq] at h
        subst h
        exact ⟨hinv, fun hms => hms, fun lfn _ => rfl⟩
      · rw [applyOp, set0_write s p v hp hmiss] at h
        simp only [Option.map_some', Option.some.injEq] at h
        subst h
        refine ⟨inv_leafWrite cfg s p v hinv hmiss, ms_leafWrite cfg s p v, ?_⟩
        intro lfn htouch
        simp only [opTouches, decide_eq_false_iff_not] at htouch
        exact get_leafWrite_other cfg s p v hinv hmiss lfn (fun hc => htouch hc.symm)
    · have hle : MAX_P2M_PFN ≤ p := not_lt.mp hp
      by_cases hv : v = INVALID_P2M_ENTRY
      · rw [applyOp, hv, set0_oob_ok s p hle] at h
        simp only [Option.map_some', Option.some.injEq] at h
        subst h
        exact ⟨hinv, fun hms => hms, fun lfn _ => rfl⟩
      · rw [applyOp, set0_oob_bug s p v hle hv] at h
        simp at h
  | setOp p v =>
    by_cases hp : p < MAX_P2M_PFN
    · obtain ⟨b1, s1, heq, hinv1, hms1, _, hother⟩ := set_phys_to_machine_spec cfg s p v hp hinv
      rw [applyOp, heq] at h
      simp only [Option.map_some', Option.some.injEq] at h
      subst h
      refine ⟨hinv1, hms1, ?_⟩
      intro lfn htouch
      simp only [opTouches, decide_eq_false_iff_not] at htouch
      exact hother lfn (fun hc => htouch hc.symm)
    · have hle : MAX_P2M_PFN ≤ p := not_lt.mp hp
      by_cases hv : v = INVALID_P2M_ENTRY
      · rw [applyOp] at h
        rw [show set_phys_to_machine cfg s p v = some (true, s) by
          simp only [set_phys_to_machine, hv, set0_oob_ok s p hle]] at h
        simp only [Option.map_some', Option.some.injEq] at h
        subst h
        exact ⟨hinv, fun hms => hms, fun lfn _ => rfl⟩
      · rw [applyOp] at h
        rw [show set_phys_to_machine cfg s p v = none by
          simp only [set_phys_to_machine, set0_oob_bug s p v hle hv]] at h
        simp at h
  | allocOp p =>
    by_cases hp : p < MAX_P2M_PFN
    · obtain ⟨b1, s1, heq, hinv1, hget1, hms1, _⟩ := alloc_p2m_spec cfg s p hp hinv
      rw [applyOp, heq] at h
      simp only [Option.map_some', Option.some.injEq] at h
      subst h
      exact ⟨hinv1, hms1, fun lfn _ => hget1 lfn⟩
    · rw [applyOp] at h
      rw [show alloc_p2m cfg s p = none by
        simp only [alloc_p2m, if_pos (not_lt.mp hp)]] at h
      simp at h

theorem runOps_spec (cfg : P2MCfg) (ops : List P2MOp) :
    ∀ s s3, P2MInv cfg s → runOps cfg s ops = some s3 →
      P2MInv cfg s3 ∧ (MirrorSync cfg s → MirrorSync cfg s3) ∧
      ∀ lfn, (∀ op ∈ ops, opTouches op lfn = false) →
        get_phys_to_machine s3 lfn = get_phys_to_machine s lfn := by
  induction ops with
  | nil =>
    intro s s3 hinv h
    simp only [runOps, Option.some.injEq] at h
    subst h
    exact ⟨hinv, fun hms => hms, fun lfn _ => rfl⟩
  | cons op rest ih =>
    intro s s3 hinv h
    rw [runOps] at h
    cases happ : applyOp cfg s op with
    | none => rw [happ] at h; simp at h
    | some s1 =>
      rw [happ] at h
      obtain ⟨hinv1, hms1, hget1⟩ := applyOp_spec cfg s op s1 hinv happ
      obtain ⟨hinv3, hms3, hget3⟩ := ih s1 s3 hinv1 h
      refine ⟨hinv3, fun hms => hms3 (hms1 hms), ?_⟩
      intro lfn hall
      rw [hget3 lfn (fun o ho => hall o (List.mem_cons_of_mem op ho)),
        hget1 lfn (hall op (List.mem_cons_self op rest))]

/-- Concrete environment used by the witnesses: an injective
virt_to_mfn and an allocator that always succeeds. -/
def cfg0 : P2MCfg where
  virtToMfn := fun p => p + 1000
  allocOK := fun _ => true

theorem initState_ms (cfg : P2MCfg) (mx : Nat) : MirrorSync cfg (initState cfg mx) := by
  intro t i hmid
  exact absurd rfl hmid

/-- C1: for every LFN below MAX_P2M_PFN and every GFN, if
set_phys_to_machine(lfn, gfn) returns true then an immediately
subsequent get_phys_to_machine(lfn) returns gfn, and gfn keeps being
returned across any further sequence of p2m calls none of whose stores
targets lfn (so only a later successful store at lfn can overwrite
it); in particular set_phys_to_machine at other LFNs does not change
the value read at lfn. -/
theorem claim_C1_set_get_roundtrip (cfg : P2MCfg) (s : P2MState) (lfn gfn : Nat)
    (hinv : P2MInv cfg s) (hlfn : lfn < MAX_P2M_PFN) :
    ∀ s2, set_phys_to_machine cfg s lfn gfn = some (true, s2) →
      get_phys_to_machine s2 lfn = gfn ∧
      ∀ ops s3, (∀ op ∈ ops, opTouches op lfn = false) →
        runOps cfg s2 ops = some s3 → get_phys_to_machine s3 lfn = gfn := by
  intro s2 hset
  obtain ⟨b, s2', heq, hinv2, hms2, hget, hother⟩ :=
    set_phys_to_machine_spec cfg s lfn gfn hlfn hinv
  rw [heq] at hset
  simp only [Option.some.injEq, Prod.mk.injEq] at hset
  obtain ⟨hb, hs⟩ := hset
  subst hs
  subst hb
  refine ⟨hget rfl, ?_⟩
  intro ops s3 hall hrun
  obtain ⟨_, _, hpers⟩ := runOps_spec cfg ops s2' s3 hinv2 hrun
  rw [hpers lfn hall]
  exact hget rfl

/-- The state a concrete successful store at lfn 10 produces. -/
def c1s2 : P2MState :=
  ((set_phys_to_machine cfg0 (initState cfg0 4096) 10 500).getD
    (true, initState cfg0 4096)).2

/-- A concrete run of further calls, none storing at lfn 10. -/
def c1ops : List P2MOp := [P2MOp.setOp 11 600, P2MOp.rawSet 12 700, P2MOp.allocOp 13]

def c1s3 : P2MState := (runOps cfg0 c1s2 c1ops).getD c1s2

theorem claim_C1_witness :
    get_phys_to_machine c1s2 10 = 500 ∧ get_phys_to_machine c1s3 10 = 500 := by
  have h := claim_C1_set_get_roundtrip cfg0 (initState cfg0 4096) 10 500
    (initState_inv cfg0 4096) (by decide) c1s2 (by rfl)
  exact ⟨h.1, h.2 c1ops c1s3 (by decide) (by rfl)⟩

/-- C3: for every LFN at or beyond MAX_P2M_PFN, get_phys_to_machine
returns INVALID_P2M_ENTRY (the lookup is a pure function of the state,
so it allocates nothing and mutates nothing), and __set_phys_to_machine
at such an LFN is a successful no-op when the GFN is INVALID and hits
BUG_ON (modelled as none) when the GFN is a real value. -/
theorem claim_C3_out_of_range (s : P2MState) (pfn mfn : Nat) (h : MAX_P2M_PFN ≤ pfn) :
    get_phys_to_machine s pfn = INVALID_P2M_ENTRY ∧
    (mfn = INVALID_P2M_ENTRY → __set_phys_to_machine s pfn mfn = some (true, s)) ∧
    (mfn ≠ INVALID_P2M_ENTRY → __set_phys_to_machine s pfn mfn = none) := by
  refine ⟨?_, ?_, ?_⟩
  · unfold get_phys_to_machine
    rw [if_pos h]
  · intro hm
    subst hm
    exact set0_oob_ok s pfn h
  · intro hm
    exact set0_oob_bug s pfn mfn h hm

theorem claim_C3_witness :
    get_phys_to_machine (initState cfg0 0) MAX_P2M_PFN = INVALID_P2M_ENTRY ∧
    (7 = INVALID_P2M_ENTRY →
      __set_phys_to_machine (initState cfg0 0) MAX_P2M_PFN 7 =
        some (true, initState cfg0 0)) ∧
    (7 ≠ INVALID_P2M_ENTRY →
      __set_phys_to_machine (initState cfg0 0) MAX_P2M_PFN 7 = none) :=
  claim_C3_out_of_range (initState cfg0 0) MAX_P2M_PFN 7 (Nat.le_refl MAX_P2M_PFN)

/-- C4: for every in-range LFN, __set_phys_to_machine fails (returns
false without writing) exactly when the covering leaf is the shared
missing placeholder and the GFN is a real value; a missing mid level
implies the covering leaf read is the missing leaf placeholder (so the
"mid or leaf missing" condition reduces to the leaf check the code
performs); storing INVALID into a missing region trivially succeeds
without writing; and when the leaf is allocated the GFN is stored into
the leaf slot and true is returned. -/
theorem claim_C4_try_set (cfg : P2MCfg) (s : P2MState) (pfn mfn : Nat)
    (hinv : P2MInv cfg s) (hpfn : pfn < MAX_P2M_PFN) :
    (s.top (p2m_top_index pfn) = idMidMissing →
      s.midH (s.top (p2m_top_index pfn)) (p2m_mid_index pfn) = idMissing) ∧
    (s.midH (s.top (p2m_top_index pfn)) (p2m_mid_index pfn) = idMissing →
      (mfn ≠ INVALID_P2M_ENTRY → __set_phys_to_machine s pfn mfn = some (false, s)) ∧
      (mfn = INVALID_P2M_ENTRY → __set_phys_to_machine s pfn mfn = some (true, s))) ∧
    (s.midH (s.top (p2m_top_index pfn)) (p2m_mid_index pfn) ≠ idMissing →
      __set_phys_to_machine s pfn mfn = some (true, leafWriteState s pfn mfn) ∧
      get_phys_to_machine (leafWriteState s pfn mfn) pfn = mfn) := by
  refine ⟨?_, ?_, ?_⟩
  · intro hmid
    rw [hmid]
    exact hinv.missMid _
  · intro hmiss
    refine ⟨?_, ?_⟩
    · intro hm
      rw [set0_missing s pfn mfn hpfn hmiss, decide_eq_false hm]
    · intro hm
      subst hm
      rw [set0_missing s pfn INVALID_P2M_ENTRY hpfn hmiss]
      rfl
  · intro hpres
    exact ⟨set0_write s pfn mfn hpfn hpres, get_leafWrite_self cfg s pfn mfn hpfn⟩

theorem claim_C4_witness :
    ((initState cfg0 16).top (p2m_top_index 5) = idMidMissing →
      (initState cfg0 16).midH ((initState cfg0 16).top (p2m_top_index 5))
        (p2m_mid_index 5) = idMissing) ∧
    ((initState cfg0 16).midH ((initState cfg0 16).top (p2m_top_index 5))
        (p2m_mid_index 5) = idMissing →
      (77 ≠ INVALID_P2M_ENTRY →
        __set_phys_to_machine (initState cfg0 16) 5 77 = some (false, initState cfg0 16)) ∧
      (77 = INVALID_P2M_ENTRY →
        __set_phys_to_machine (initState cfg0 16) 5 77 = some (true, initState cfg0 16))) ∧
    ((initState cfg0 16).midH ((initState cfg0 16).top (p2m_top_index 5))
        (p2m_mid_index 5) ≠ idMissing →
      __set_phys_to_machine (initState cfg0 16) 5 77 =
        some (true, leafWriteState (initState cfg0 16) 5 77) ∧
      get_phys_to_machine (leafWriteState (initState cfg0 16) 5 77) 5 = 77) :=
  claim_C4_try_set cfg0 (initState cfg0 16) 5 77 (initState_inv cfg0 16) (by decide)

/-- C5: under any sequence of get/raw-set/set/alloc calls starting
from the initial state, the shared missing placeholder pages are never
mutated in place (every entry of p2m_missing stays INVALID, every
entry of p2m_mid_missing keeps pointing at p2m_missing, every entry of
p2m_mid_missing_mfn keeps holding virt_to_mfn(p2m_missing)), and every
in-range LFN that was never the target of a store still translates to
INVALID. -/
theorem claim_C5_placeholders_immutable (cfg : P2MCfg) (mx : Nat) (ops : List P2MOp)
    (s3 : P2MState) (h : runOps cfg (initState cfg mx) ops = some s3) :
    (∀ i, s3.leafH idMissing i = INVALID_P2M_ENTRY) ∧
    (∀ i, s3.midH idMidMissing i = idMissing) ∧
    (∀ i, s3.midMfnH idMidMissingMfn i = cfg.virtToMfn idMissing) ∧
    ∀ lfn, lfn < MAX_P2M_PFN → (∀ op ∈ ops, opTouches op lfn = false) →
      get_phys_to_machine s3 lfn = INVALID_P2M_ENTRY := by
  obtain ⟨hinv3, _, hget⟩ :=
    runOps_spec cfg ops (initState cfg mx) s3 (initState_inv cfg mx) h
  refine ⟨hinv3.missLeaf, hinv3.missMid, hinv3.missMidMfn, ?_⟩
  intro lfn _ hall
  rw [hget lfn hall, get_initState]

def c5ops : List P2MOp := [P2MOp.setOp 10 500, P2MOp.allocOp 600]

def c5s3 : P2MState :=
  (runOps cfg0 (initState cfg0 4096) c5ops).getD (initState cfg0 4096)

theorem claim_C5_witness :
    (∀ i, c5s3.leafH idMissing i = INVALID_P2M_ENTRY) ∧
    (∀ i, c5s3.midH idMidMissing i = idMissing) ∧
    (∀ i, c5s3.midMfnH idMidMissingMfn i = cfg0.virtToMfn idMissing) ∧
    ∀ lfn, lfn < MAX_P2M_PFN → (∀ op ∈ c5ops, opTouches op lfn = false) →
      get_phys_to_machine c5s3 lfn = INVALID_P2M_ENTRY :=
  claim_C5_placeholders_immutable cfg0 4096 c5ops c5s3 rfl

/-- C7: the Mirror Index stays structurally synchronized with the
Translation Table: synchronization holds in the initial state, and
every alloc_p2m call from an invariant synchronized state completes
without hitting its BUG_ON assertions and yields a state in which
every allocated leaf page p2m_top[t][i] has its machine frame recorded
in p2m_top_mfn_p[t][i] and p2m_top_mfn[t] equals virt_to_mfn of
p2m_top_mfn_p[t]. -/
theorem claim_C7_mirror_in_sync (cfg : P2MCfg) (s : P2MState) (pfn mx : Nat)
    (hpfn : pfn < MAX_P2M_PFN) (hinv : P2MInv cfg s) (hms : MirrorSync cfg s) :
    MirrorSync cfg (initState cfg mx) ∧
    ∃ b s2, alloc_p2m cfg s pfn = some (b, s2) ∧
      MirrorSync cfg s2 ∧
      (∀ t, s2.topMfn t = cfg.virtToMfn (s2.topMfnP t)) ∧
      P2MInv cfg s2 := by
  refine ⟨initState_ms cfg mx, ?_⟩
  obtain ⟨b, s2, heq, hinv2, _, hms2, _⟩ := alloc_p2m_spec cfg s pfn hpfn hinv
  exact ⟨b, s2, heq, hms2 hms, hinv2.mfnSync, hinv2⟩

theorem claim_C7_witness :
    MirrorSync cfg0 (initState cfg0 64) ∧
    ∃ b s2, alloc_p2m cfg0 (initState cfg0 64) 3 = some (b, s2) ∧
      MirrorSync cfg0 s2 ∧
      (∀ t, s2.topMfn t = cfg0.virtToMfn (s2.topMfnP t)) ∧
      P2MInv cfg0 s2 :=
  claim_C7_mirror_in_sync cfg0 (initState cfg0 64) 3 64 (by decide)
    (initState_inv cfg0 64) (initState_ms cfg0 64)

/-- State change of one non-skipped iteration of the
xen_build_mfn_list_list loop at top index t, mid index m: if the
mirror mid page is still the missing placeholder a fresh page is
obtained from extend_brk and installed (runtime comment in the source
says this is boot-only; the model allocates a fresh page), then
p2m_top_mfn[t] is set to virt_to_mfn of the mirror mid page and the
mirror mid entry m is set to virt_to_mfn of the p2m page it mirrors. -/
def buildStepState (cfg : P2MCfg) (s : P2MState) (t m : Nat) : P2MState :=
  if s.topMfnP t = idMidMissingMfn then
    { s with
      midMfnH := updEntry (updPage s.midMfnH s.nextPage (fun _ => cfg.virtToMfn idMissing)) s.nextPage m (cfg.virtToMfn (s.midH (s.top t) m)),
      topMfnP := upd s.topMfnP t s.nextPage,
      topMfn := upd s.topMfn t (cfg.virtToMfn s.nextPage),
      nextPage := s.nextPage + 1 }
  else
    { s with
      midMfnH := updEntry s.midMfnH (s.topMfnP t) m (cfg.virtToMfn (s.midH (s.top t) m)),
      topMfn := upd s.topMfn t (cfg.virtToMfn (s.topMfnP t)) }

/-- State change of a skipped (missing mid) iteration: only the top
mirror entry is set to the mfn of the shared missing mirror page. -/
def buildSkipState (cfg : P2MCfg) (s : P2MState) (t : Nat) : P2MState :=
  { s with topMfn := upd s.topMfn t (cfg.virtToMfn idMidMissingMfn) }

/-- The pfn loop of xen_build_mfn_list_list, returning the final state
and the list of visited pfns; none models a BUG_ON firing.  When the
mid level is the missing placeholder the whole top entry is skipped
(the source adds (P2M_MID_PER_PAGE-1)*P2M_PER_PAGE and the loop adds
another P2M_PER_PAGE). -/
def buildLoop (cfg : P2MCfg) (mx : Nat) : Nat → P2MState → Nat → Option (P2MState × List Nat)
  | 0, s, pfn => if mx ≤ pfn then some (s, []) else none
  | fuel + 1, s, pfn =>
    if mx ≤ pfn then some (s, [])
    else if s.top (p2m_top_index pfn) = idMidMissing then
      if p2m_mid_index pfn ≠ 0 then none
      else if s.topMfnP (p2m_top_index pfn) ≠ idMidMissingMfn then none
      else
        match buildLoop cfg mx fuel (buildSkipState cfg s (p2m_top_index pfn))
            (pfn + P2M_MID_PER_PAGE * P2M_PER_PAGE) with
        | none => none
        | some (s2, vis) => some (s2, pfn :: vis)
    else
      match buildLoop cfg mx fuel
          (buildStepState cfg s (p2m_top_index pfn) (p2m_mid_index pfn))
          (pfn + P2M_PER_PAGE) with
      | none => none
      | some (s2, vis) => some (s2, pfn :: vis)

/-- Model of the runtime (post-boot) call of xen_build_mfn_list_list:
the mirror arrays already exist, the contents of the shared missing
mirror page are reinitialized (mfns change across migration), and the
pfn loop runs from 0 to xen_max_p2m_pfn.  The loop is written with a
structural fuel argument; xen_max_p2m_pfn units of fuel always suffice
because every iteration advances pfn by at least P2M_PER_PAGE. -/
def xen_build_mfn_list_list (cfg : P2MCfg) (s : P2MState) :
    Option (P2MState × List Nat) :=
  buildLoop cfg s.maxPfn s.maxPfn
    { s with midMfnH := updPage s.midMfnH idMidMissingMfn (fun _ => cfg.virtToMfn idMissing) }
    0

/-- What the mirror rebuild must establish at position (t, m): a
missing mid has its top mirror entry pointing at the shared missing
mirror page, and an allocated mid has an allocated mirror mid page
whose entry m holds the mfn of the p2m page at (t, m). -/
def mirrorDone (cfg : P2MCfg) (s : P2MState) (t m : Nat) : Prop :=
  (s.top t = idMidMissing → s.topMfn t = cfg.virtToMfn idMidMissingMfn) ∧
  (s.top t ≠ idMidMissing →
    s.topMfnP t ≠ idMidMissingMfn ∧
    s.midMfnH (s.topMfnP t) m = cfg.virtToMfn (s.midH (s.top t) m))

/-- The part of P2MInv that the mirror rebuild loop needs and preserves. -/
structure BuildInv (cfg : P2MCfg) (s : P2MState) : Prop where
  topMfnPOk : ∀ t, s.topMfnP t = idMidMissingMfn ∨
      (1 ≤ s.topMfnP t ∧ s.topMfnP t < s.nextPage)
  topMfnPInj : ∀ t t', s.topMfnP t ≠ idMidMissingMfn → s.topMfnP t = s.topMfnP t' → t = t'
  missSync : ∀ t, s.top t = idMidMissing → s.topMfnP t = idMidMissingMfn
  nextPos : 1 ≤ s.nextPage

theorem buildStep_top (cfg : P2MCfg) (s : P2MState) (t m : Nat) :
    (buildStepState cfg s t m).top = s.top := by
  unfold buildStepState
  split <;> rfl

theorem buildStep_midH (cfg : P2MCfg) (s : P2MState) (t m : Nat) :
    (buildStepState cfg s t m).midH = s.midH := by
  unfold buildStepState
  split <;> rfl

theorem buildStep_leafH (cfg : P2MCfg) (s : P2MState) (t m : Nat) :
    (buildStepState cfg s t m).leafH = s.leafH := by
  unfold buildStepState
  split <;> rfl

theorem buildStep_maxPfn (cfg : P2MCfg) (s : P2MState) (t m : Nat) :
    (buildStepState cfg s t m).maxPfn = s.maxPfn := by
  unfold buildStepState
  split <;> rfl

theorem buildInv_skip (cfg : P2MCfg) (s : P2MState) (t : Nat) (hbi : BuildInv cfg s) :
    BuildInv cfg (buildSkipState cfg s t) :=
  ⟨hbi.topMfnPOk, hbi.topMfnPInj, hbi.missSync, hbi.nextPos⟩

theorem buildInv_step (cfg : P2MCfg) (s : P2MState) (t m : Nat)
    (hbi : BuildInv cfg s) (htop : s.top t ≠ idMidMissing) :
    BuildInv cfg (buildStepState cfg s t m) := by
  obtain ⟨pOk, pInj, mS, nP⟩ := hbi
  unfold buildStepState
  by_cases hP : s.topMfnP t = idMidMissingMfn
  · rw [if_pos hP]
    refine ⟨?_, ?_, ?_, ?_⟩ <;> dsimp only
    · intro t'
      by_cases h1 : t' = t
      · rw [h1, upd_self]
        right
        exact ⟨nP, by omega⟩
      · rw [upd_other _ _ _ _ h1]
        rcases pOk t' with h | h
        · exact Or.inl h
        · right
          omega
    · intro a b ha hab
      by_cases h1 : a = t
      · rw [h1, upd_self] at hab
        by_cases h2 : b = t
        · rw [h1, h2]
        · rw [upd_other _ _ _ _ h2] at hab
          rcases pOk b with h | h
          · rw [h] at hab
            rw [hab, idMidMissingMfn_eq] at nP
            omega
          · omega
      · rw [upd_other _ _ _ _ h1] at ha hab
        by_cases h2 : b = t
        · rw [h2, upd_self] at hab
          rcases pOk a with h | h
          · exact absurd h ha
          · omega
        · rw [upd_other _ _ _ _ h2] at hab
          exact pInj a b ha hab
    · intro t' ht'
      by_cases h1 : t' = t
      · rw [h1] at ht'
        exact absurd ht' htop
      · rw [upd_other _ _ _ _ h1]
        exact mS t' ht'
    · omega
  · rw [if_neg hP]
    exact ⟨pOk, pInj, mS, nP⟩

theorem mirrorDone_mono_skip (cfg : P2MCfg) (s : P2MState) (t : Nat)
    (htop : s.top t = idMidMissing) :
    ∀ t' m', mirrorDone cfg s t' m' → mirrorDone cfg (buildSkipState cfg s t) t' m' := by
  intro t' m' hd
  unfold mirrorDone at hd ⊢
  unfold buildSkipState
  dsimp only
  constructor
  · intro htm
    by_cases h1 : t' = t
    · rw [h1, upd_self]
    · rw [upd_other _ _ _ _ h1]
      exact hd.1 htm
  · intro htm
    exact hd.2 htm

theorem mirrorDone_skip_self (cfg : P2MCfg) (s : P2MState) (t : Nat)
    (htop : s.top t = idMidMissing) :
    ∀ m', mirrorDone cfg (buildSkipState cfg s t) t m' := by
  intro m'
  unfold mirrorDone buildSkipState
  dsimp only
  constructor
  · intro _
    rw [upd_self]
  · intro htne
    exact absurd htop htne

theorem mirrorDone_mono_step (cfg : P2MCfg) (s : P2MState) (t m : Nat)
    (hbi : BuildInv cfg s) (htop : s.top t ≠ idMidMissing) :
    ∀ t' m', mirrorDone cfg s t' m' → mirrorDone cfg (buildStepState cfg s t m) t' m' := by
  intro t' m' hd
  unfold mirrorDone at hd ⊢
  unfold buildStepState
  by_cases hP : s.topMfnP t = idMidMissingMfn
  · rw [if_pos hP]
    dsimp only
    constructor
    · intro htm
      by_cases h1 : t' = t
      · rw [h1] at htm
        exact absurd htm htop
      · rw [upd_other _ _ _ _ h1]
        exact hd.1 htm
    · intro htne
      by_cases h1 : t' = t
      · rw [h1] at htne hd
        exact absurd hP (hd.2 htne).1
      · obtain ⟨hne, hval⟩ := hd.2 htne
        have hlt : s.topMfnP t' < s.nextPage := by
          rcases hbi.topMfnPOk t' with h | h
          · exact absurd h hne
          · omega
        refine ⟨?_, ?_⟩
        · rw [upd_other _ _ _ _ h1]
          exact hne
        · rw [upd_other _ _ _ _ h1]
          rw [updEntry_other_page _ _ _ _ _ (by omega)]
          rw [updPage_other _ _ _ _ (by omega)]
          exact hval
  · rw [if_neg hP]
    dsimp only
    constructor
    · intro htm
      by_cases h1 : t' = t
      · rw [h1] at htm
        exact absurd htm htop
      · rw [upd_other _ _ _ _ h1]
        exact hd.1 htm
    · intro htne
      obtain ⟨hne, hval⟩ := hd.2 htne
      refine ⟨hne, ?_⟩
      by_cases hpage : s.topMfnP t' = s.topMfnP t
      · have ht' : t' = t := hbi.topMfnPInj t' t hne hpage
        by_cases hm' : m' = m
        · rw [ht', hm', updEntry_self]
        · rw [hpage, updEntry_same_page _ _ _ _ _ hm', ← hpage]
          exact hval
      · rw [updEntry_other_page _ _ _ _ _ hpage]
        exact hval

theorem mirrorDone_step_self (cfg : P2MCfg) (s : P2MState) (t m : Nat)
    (hbi : BuildInv cfg s) (htop : s.top t ≠ idMidMissing) :
    mirrorDone cfg (buildStepState cfg s t m) t m := by
  unfold mirrorDone buildStepState
  have hnp := hbi.nextPos
  by_cases hP : s.topMfnP t = idMidMissingMfn
  · rw [if_pos hP]
    dsimp only
    constructor
    · intro htm
      exact absurd htm htop
    · intro _
      rw [upd_self]
      refine ⟨by rw [idMidMissingMfn_eq]; omega, ?_⟩
      rw [updEntry_self]
  · rw [if_neg hP]
    dsimp only
    constructor
    · intro htm
      exact absurd htm htop
    · intro _
      exact ⟨hP, by rw [updEntry_self]⟩

theorem buildLoop_spec (cfg : P2MCfg) (mx : Nat) :
    ∀ n s pfn, mx ≤ pfn + n → BuildInv cfg s → pfn % 512 = 0 →
      (p2m_mid_index pfn ≠ 0 → s.top (p2m_top_index pfn) ≠ idMidMissing) →
      ∃ s2 vis, buildLoop cfg mx n s pfn = some (s2, vis) ∧
        s2.top = s.top ∧ s2.midH = s.midH ∧
        BuildInv cfg s2 ∧
        (∀ t m, mirrorDone cfg s t m → mirrorDone cfg s2 t m) ∧
        (∀ q, pfn ≤ q → q < mx → mirrorDone cfg s2 (p2m_top_index q) (p2m_mid_index q)) ∧
        (∀ q ∈ vis, s.top (p2m_top_index q) = idMidMissing → p2m_mid_index q = 0) := by
  intro n
  induction n with
  | zero =>
    intro s pfn hn hbi _ _
    refine ⟨s, [], ?_, rfl, rfl, hbi, fun t m hd => hd, ?_, ?_⟩
    · unfold buildLoop
      rw [if_pos (by omega)]
    · intro q hq1 hq2
      omega
    · intro q hq
      simp at hq
  | succ k ih =>
    intro s pfn hn hbi halign hmid0
    by_cases hlt : pfn < mx
    · by_cases htop : s.top (p2m_top_index pfn) = idMidMissing
      · have hm0 : p2m_mid_index pfn = 0 := by
          by_contra hc
          exact (hmid0 hc) htop
        have hPmiss : s.topMfnP (p2m_top_index pfn) = idMidMissingMfn :=
          hbi.missSync _ htop
        have hstep : P2M_MID_PER_PAGE * P2M_PER_PAGE = 262144 := rfl
        have hP262 : pfn % 262144 = 0 := by
          rw [p2m_mid_index_eq] at hm0
          omega
        obtain ⟨s2, vis, heqrec, htop2, hmid2, hbi2, hmono2, hcov2, hvis2⟩ :=
          ih (buildSkipState cfg s (p2m_top_index pfn)) (pfn + 262144)
            (by omega) (buildInv_skip cfg s _ hbi) (by omega)
            (by intro hc
                exact absurd (by simp only [p2m_mid_index_eq]; omega) hc)
        refine ⟨s2, pfn :: vis, ?_, htop2, hmid2, hbi2, ?_, ?_, ?_⟩
        · unfold buildLoop
          rw [if_neg (by omega), if_pos htop, if_neg (by simp [hm0]),
            if_neg (by simp [hPmiss]), hstep, heqrec]
        · intro t m hd
          exact hmono2 t m (mirrorDone_mono_skip cfg s _ htop t m hd)
        · intro q hq1 hq2
          by_cases hq3 : q < pfn + 262144
          · have htq : p2m_top_index q = p2m_top_index pfn := by
              simp only [p2m_top_index_eq]
              omega
            rw [htq]
            exact hmono2 _ _ (mirrorDone_skip_self cfg s _ htop _)
          · exact hcov2 q (by omega) hq2
        · intro q hq hqtop
          rcases List.mem_cons.mp hq with h | h
          · rw [h]
            exact hm0
          · exact hvis2 q h hqtop
      · have hset : P2M_PER_PAGE = 512 := rfl
        obtain ⟨s2, vis, heqrec, htop2, hmid2, hbi2, hmono2, hcov2, hvis2⟩ :=
          ih (buildStepState cfg s (p2m_top_index pfn) (p2m_mid_index pfn)) (pfn + 512)
            (by omega) (buildInv_step cfg s _ _ hbi htop) (by omega)
            (by intro hc
                have htq : p2m_top_index (pfn + 512) = p2m_top_index pfn := by
                  simp only [p2m_mid_index_eq] at hc
                  simp only [p2m_top_index_eq]
                  omega
                rw [buildStep_top, htq]
                exact htop)
        refine ⟨s2, pfn :: vis, ?_, ?_, ?_, hbi2, ?_, ?_, ?_⟩
        · unfold buildLoop
          rw [if_neg (by omega), if_neg htop, hset, heqrec]
        · rw [htop2, buildStep_top]
        · rw [hmid2, buildStep_midH]
        · intro t m hd
          exact hmono2 t m (mirrorDone_mono_step cfg s _ _ hbi htop t m hd)
        · intro q hq1 hq2
          by_cases hq3 : q < pfn + 512
          · have htq : p2m_top_index q = p2m_top_index pfn := by
              simp only [p2m_top_index_eq]
              omega
            have hmq : p2m_mid_index q = p2m_mid_index pfn := by
              simp only [p2m_mid_index_eq]
              omega
            rw [htq, hmq]
            exact hmono2 _ _ (mirrorDone_step_self cfg s _ _ hbi htop)
          · exact hcov2 q (by omega) hq2
        · intro q hq hqtop
          rcases List.mem_cons.mp hq with h | h
          · rw [h] at hqtop
            exact absurd hqtop htop
          · exact hvis2 q h (by rw [buildStep_top]; exact hqtop)
    · refine ⟨s, [], ?_, rfl, rfl, hbi, fun t m hd => hd, ?_, ?_⟩
      · unfold buildLoop
        rw [if_pos (by omega)]
      · intro q hq1 hq2
        omega
      · intro q hq
        simp at hq

/-- C8: from any state satisfying the structural invariant (such as
any state reached by set_phys_to_machine calls that allocated new
leaves), xen_build_mfn_list_list completes without any BUG_ON firing
and produces a Mirror Index in which, for every pfn below
xen_max_p2m_pfn: if the covering mid page is allocated, the mirror mid
entry holds virt_to_mfn of the corresponding p2m leaf/mid page, and if
the covering mid page is still the missing placeholder, the top mirror
entry holds virt_to_mfn of the single shared missing-mirror page;
moreover the loop does not walk a missing subtree: any visited pfn
whose mid level is missing is the first pfn of its top entry. -/
theorem claim_C8_build_mfn_list_list (cfg : P2MCfg) (s : P2MState)
    (hinv : P2MInv cfg s) :
    ∃ s2 vis, xen_build_mfn_list_list cfg s = some (s2, vis) ∧
      (∀ q, q < s.maxPfn →
        (s.top (p2m_top_index q) = idMidMissing →
          s2.topMfn (p2m_top_index q) = cfg.virtToMfn idMidMissingMfn) ∧
        (s.top (p2m_top_index q) ≠ idMidMissing →
          s2.topMfnP (p2m_top_index q) ≠ idMidMissingMfn ∧
          s2.midMfnH (s2.topMfnP (p2m_top_index q)) (p2m_mid_index q) =
            cfg.virtToMfn (s.midH (s.top (p2m_top_index q)) (p2m_mid_index q)))) ∧
      (∀ q ∈ vis, s.top (p2m_top_index q) = idMidMissing → p2m_mid_index q = 0) := by
  have hbi0 : BuildInv cfg
      { s with midMfnH := updPage s.midMfnH idMidMissingMfn (fun _ => cfg.virtToMfn idMissing) } :=
    ⟨hinv.topMfnPOk, hinv.topMfnPInj, hinv.missSync, hinv.nextPos⟩
  obtain ⟨s2, vis, heq, htop2, hmid2, hbi2, hmono2, hcov2, hvis2⟩ :=
    buildLoop_spec cfg s.maxPfn s.maxPfn
      { s with midMfnH := updPage s.midMfnH idMidMissingMfn (fun _ => cfg.virtToMfn idMissing) }
      0 (by omega) hbi0 (by omega)
      (by intro hc; exact absurd rfl hc)
  refine ⟨s2, vis, heq, ?_, ?_⟩
  · intro q hq
    have hd := hcov2 q (Nat.zero_le q) hq
    constructor
    · intro hqm
      have hq2 : s2.top (p2m_top_index q) = idMidMissing := by
        rw [htop2]
        exact hqm
      exact hd.1 hq2
    · intro hqn
      have hq2 : s2.top (p2m_top_index q) ≠ idMidMissing := by
        rw [htop2]
        exact hqn
      obtain ⟨ha, hb⟩ := hd.2 hq2
      refine ⟨ha, ?_⟩
      rw [htop2, hmid2] at hb
      exact hb
  · intro q hqv hqm
    exact hvis2 q hqv hqm

theorem claim_C8_witness :
    ∃ s2 vis, xen_build_mfn_list_list cfg0 (initState cfg0 1024) = some (s2, vis) ∧
      (∀ q, q < (initState cfg0 1024).maxPfn →
        ((initState cfg0 1024).top (p2m_top_index q) = idMidMissing →
          s2.topMfn (p2m_top_index q) = cfg0.virtToMfn idMidMissingMfn) ∧
        ((initState cfg0 1024).top (p2m_top_index q) ≠ idMidMissing →
          s2.topMfnP (p2m_top_index q) ≠ idMidMissingMfn ∧
          s2.midMfnH (s2.topMfnP (p2m_top_index q)) (p2m_mid_index q) =
            cfg0.virtToMfn ((initState cfg0 1024).midH
              ((initState cfg0 1024).top (p2m_top_index q)) (p2m_mid_index q)))) ∧
      (∀ q ∈ vis, (initState cfg0 1024).top (p2m_top_index q) = idMidMissing →
        p2m_mid_index q = 0) :=
  claim_C8_build_mfn_list_list cfg0 (initState cfg0 1024) (initState_inv cfg0 1024)

/-- Levels of the pagetable walk, from enum pt_level. -/
inductive PtLevel where
  | PT_PGD
  | PT_PUD
  | PT_PMD
  | PT_PTE
deriving DecidableEq, Repr

/-- Abstract shape of a 4-level x86-64 pagetable, as the walk observes
it: per-index presence bits (pgd_val != 0, pud_none, pmd_none) and the
page ids of the pud/pmd/pte table pages reachable from each index
(virt_to_page(pud_offset(..)), virt_to_page(pmd_offset(..)),
pmd_page(..)).  rootPage is virt_to_page(pgd). -/
structure PageTable where
  rootPage : Nat
  pgdPresent : Nat → Bool
  pudPage : Nat → Nat
  pudPresent : Nat → Nat → Bool
  pmdPage : Nat → Nat → Nat
  pmdPresent : Nat → Nat → Nat → Bool
  ptePage : Nat → Nat → Nat → Nat

/-- Index bounds of __xen_pgd_walk computed from its limit argument
and the address-space constants: hole bounds are pgd_index(USER_LIMIT)
and pgd_index(PAGE_OFFSET), the limits are pgd/pud/pmd_index(limit-1).
These come from external headers, so they are environment parameters
of the model. -/
structure WalkCfg where
  holeLow : Nat
  holeHigh : Nat
  pgdLimit : Nat
  pudLimit : Nat
  pmdLimit : Nat

/-- On x86-64 each pagetable level has 512 entries. -/
def PTRS_PER_PT : Nat := 512

/-- Accumulator of the walk: callback state, accumulated flush flag,
visit sequence (page, level) in callback order, and whether the goto
out early exit was taken. -/
structure WalkAcc (σ : Type) where
  st : σ
  flush : Bool
  visits : List (Nat × PtLevel)
  stopped : Bool

/-- One callback invocation: flush |= (*func)(mm, page, level). -/
def visitPage {σ : Type} (f : σ → Nat → PtLevel → σ × Bool) (a : WalkAcc σ)
    (pg : Nat) (lv : PtLevel) : WalkAcc σ :=
  { a with st := (f a.st pg lv).1, flush := a.flush || (f a.st pg lv).2,
           visits := a.visits ++ [(pg, lv)] }

/-- The pmdidx loop of __xen_pgd_walk (innermost). -/
def pmdLoop {σ : Type} (cfg : WalkCfg) (pt : PageTable)
    (f : σ → Nat → PtLevel → σ × Bool) (pgdidx pudidx : Nat) (a : WalkAcc σ) : WalkAcc σ :=
  (List.range PTRS_PER_PT).foldl (fun a pmdidx =>
    if a.stopped then a
    else if pgdidx = cfg.pgdLimit ∧ pudidx = cfg.pudLimit ∧ cfg.pmdLimit < pmdidx then
      { a with stopped := true }
    else if pt.pmdPresent pgdidx pudidx pmdidx = false then a
    else visitPage f a (pt.ptePage pgdidx pudidx pmdidx) PtLevel.PT_PTE) a

/-- The pudidx loop of __xen_pgd_walk. -/
def pudLoop {σ : Type} (cfg : WalkCfg) (pt : PageTable)
    (f : σ → Nat → PtLevel → σ × Bool) (pgdidx : Nat) (a : WalkAcc σ) : WalkAcc σ :=
  (List.range PTRS_PER_PT).foldl (fun a pudidx =>
    if a.stopped then a
    else if pgdidx = cfg.pgdLimit ∧ cfg.pudLimit < pudidx then
      { a with stopped := true }
    else if pt.pudPresent pgdidx pudidx = false then a
    else pmdLoop cfg pt f pgdidx pudidx
      (visitPage f a (pt.pmdPage pgdidx pudidx) PtLevel.PT_PMD)) a

/-- The pgdidx loop of __xen_pgd_walk: runs from 0 to pgdidx_limit
inclusive, skipping the Xen hole and empty entries. -/
def pgdLoop {σ : Type} (cfg : WalkCfg) (pt : PageTable)
    (f : σ → Nat → PtLevel → σ × Bool) (a : WalkAcc σ) : WalkAcc σ :=
  (List.range (cfg.pgdLimit + 1)).foldl (fun a pgdidx =>
    if a.stopped then a
    else if cfg.holeLow ≤ pgdidx ∧ pgdidx < cfg.holeHigh then a
    else if pt.pgdPresent pgdidx = false then a
    else pudLoop cfg pt f pgdidx
      (visitPage f a (pt.pudPage pgdidx) PtLevel.PT_PUD)) a

/-- Model of __xen_pgd_walk: the nested loops followed by the final
callback on the top-level page ("Do the top level last, so that the
callbacks can use it as a cue to do final things like tlb flushes").
Returns the final callback state, the accumulated flush flag, and the
visit sequence. -/
def __xen_pgd_walk {σ : Type} (cfg : WalkCfg) (pt : PageTable)
    (f : σ → Nat → PtLevel → σ × Bool) (s0 : σ) : σ × Bool × List (Nat × PtLevel) :=
  let a := pgdLoop cfg pt f { st := s0, flush := false, visits := [], stopped := false }
  let a2 := visitPage f a pt.rootPage PtLevel.PT_PGD
  (a2.st, a2.flush, a2.visits)

/-- A page is an interior page of the table (a pud, pmd or pte table
page reachable from some index). -/
def interiorPage (pt : PageTable) (p : Nat) : Prop :=
  (∃ i, pt.pudPage i = p) ∨ (∃ i j, pt.pmdPage i j = p) ∨ (∃ i j k, pt.ptePage i j k = p)

theorem foldl_visits_ext {σ : Type} (P : Nat × PtLevel → Prop)
    (g : WalkAcc σ → Nat → WalkAcc σ)
    (hg : ∀ a i, ∃ ext, (g a i).visits = a.visits ++ ext ∧ ∀ e ∈ ext, P e) :
    ∀ l (a : WalkAcc σ), ∃ ext, (List.foldl g a l).visits = a.visits ++ ext ∧ ∀ e ∈ ext, P e := by
  intro l
  induction l with
  | nil =>
    intro a
    exact ⟨[], by simp, by simp⟩
  | cons x xs ih =>
    intro a
    obtain ⟨e1, he1, hp1⟩ := hg a x
    obtain ⟨e2, he2, hp2⟩ := ih (g a x)
    refine ⟨e1 ++ e2, ?_, ?_⟩
    · rw [List.foldl_cons, he2, he1, List.append_assoc]
    · intro e he
      rcases List.mem_append.mp he with h | h
      · exact hp1 e h
      · exact hp2 e h

theorem visitPage_visits {σ : Type} (f : σ → Nat → PtLevel → σ × Bool) (a : WalkAcc σ)
    (pg : Nat) (lv : PtLevel) :
    (visitPage f a pg lv).visits = a.visits ++ [(pg, lv)] := rfl

theorem pmdLoop_visits {σ : Type} (cfg : WalkCfg) (pt : PageTable)
    (f : σ → Nat → PtLevel → σ × Bool) (pgdidx pudidx : Nat) (a : WalkAcc σ) :
    ∃ ext, (pmdLoop cfg pt f pgdidx pudidx a).visits = a.visits ++ ext ∧
      ∀ e ∈ ext, e.2 ≠ PtLevel.PT_PGD ∧ interiorPage pt e.1 := by
  apply foldl_visits_ext
  intro a i
  by_cases h1 : a.stopped
  · exact ⟨[], by simp [h1], by simp⟩
  · rw [if_neg h1]
    by_cases h2 : pgdidx = cfg.pgdLimit ∧ pudidx = cfg.pudLimit ∧ cfg.pmdLimit < i
    · exact ⟨[], by rw [if_pos h2]; simp, by simp⟩
    · rw [if_neg h2]
      by_cases h3 : pt.pmdPresent pgdidx pudidx i = false
      · exact ⟨[], by rw [if_pos h3]; simp, by simp⟩
      · rw [if_neg h3]
        refine ⟨[(pt.ptePage pgdidx pudidx i, PtLevel.PT_PTE)], rfl, ?_⟩
        intro e he
        rw [List.mem_singleton] at he
        subst he
        exact ⟨fun hc => PtLevel.noConfusion hc, Or.inr (Or.inr ⟨pgdidx, pudidx, i, rfl⟩)⟩

theorem pudLoop_visits {σ : Type} (cfg : WalkCfg) (pt : PageTable)
    (f : σ → Nat → PtLevel → σ × Bool) (pgdidx : Nat) (a : WalkAcc σ) :
    ∃ ext, (pudLoop cfg pt f pgdidx a).visits = a.visits ++ ext ∧
      ∀ e ∈ ext, e.2 ≠ PtLevel.PT_PGD ∧ interiorPage pt e.1 := by
  apply foldl_visits_ext
  intro a i
  by_cases h1 : a.stopped
  · exact ⟨[], by simp [h1], by simp⟩
  · rw [if_neg h1]
    by_cases h2 : pgdidx = cfg.pgdLimit ∧ cfg.pudLimit < i
    · exact ⟨[], by rw [if_pos h2]; simp, by simp⟩
    · rw [if_neg h2]
      by_cases h3 : pt.pudPresent pgdidx i = false
      · exact ⟨[], by rw [if_pos h3]; simp, by simp⟩
      · rw [if_neg h3]
        obtain ⟨ext, hext, hP⟩ :=
          pmdLoop_visits cfg pt f pgdidx i (visitPage f a (pt.pmdPage pgdidx i) PtLevel.PT_PMD)
        refine ⟨(pt.pmdPage pgdidx i, PtLevel.PT_PMD) :: ext, ?_, ?_⟩
        · rw [hext, visitPage_visits, List.append_assoc]
          rfl
        · intro e he
          rcases List.mem_cons.mp he with h | h
          · subst h
            exact ⟨fun hc => PtLevel.noConfusion hc, Or.inr (Or.inl ⟨pgdidx, i, rfl⟩)⟩
          · exact hP e h

theorem pgdLoop_visits {σ : Type} (cfg : WalkCfg) (pt : PageTable)
    (f : σ → Nat → PtLevel → σ × Bool) (a : WalkAcc σ) :
    ∃ ext, (pgdLoop cfg pt f a).visits = a.visits ++ ext ∧
      ∀ e ∈ ext, e.2 ≠ PtLevel.PT_PGD ∧ interiorPage pt e.1 := by
  apply foldl_visits_ext
  intro a i
  by_cases h1 : a.stopped
  · exact ⟨[], by simp [h1], by simp⟩
  · rw [if_neg h1]
    by_cases h2 : cfg.holeLow ≤ i ∧ i < cfg.holeHigh
    · exact ⟨[], by rw [if_pos h2]; simp, by simp⟩
    · rw [if_neg h2]
      by_cases h3 : pt.pgdPresent i = false
      · exact ⟨[], by rw [if_pos h3]; simp, by simp⟩
      · rw [if_neg h3]
        obtain ⟨ext, hext, hP⟩ :=
          pudLoop_visits cfg pt f i (visitPage f a (pt.pudPage i) PtLevel.PT_PUD)
        refine ⟨(pt.pudPage i, PtLevel.PT_PUD) :: ext, ?_, ?_⟩
        · rw [hext, visitPage_visits, List.append_assoc]
          rfl
        · intro e he
          rcases List.mem_cons.mp he with h | h
          · subst h
            exact ⟨fun hc => PtLevel.noConfusion hc, Or.inl ⟨i, rfl⟩⟩
          · exact hP e h

/-- C9: for every pagetable, every callback and every callback state,
__xen_pgd_walk invokes the callback on the root (top-level) page, at
level PT_PGD, as the very last invocation; every earlier invocation is
at a non-root level and (when the root page is not aliased as an
interior page of the table) on a page other than the root, so the root
invocation happens exactly once — on all exit paths of the walk,
including the early exits at the address limit. -/
theorem claim_C9_walk_root_last {σ : Type} (cfg : WalkCfg) (pt : PageTable)
    (f : σ → Nat → PtLevel → σ × Bool) (s0 : σ)
    (hroot : ¬ interiorPage pt pt.rootPage) :
    ∃ pre, (__xen_pgd_walk cfg pt f s0).2.2 = pre ++ [(pt.rootPage, PtLevel.PT_PGD)] ∧
      ∀ e ∈ pre, e.2 ≠ PtLevel.PT_PGD ∧ e.1 ≠ pt.rootPage := by
  obtain ⟨ext, hext, hP⟩ :=
    pgdLoop_visits cfg pt f { st := s0, flush := false, visits := [], stopped := false }
  refine ⟨ext, ?_, ?_⟩
  · show (visitPage f (pgdLoop cfg pt f _) pt.rootPage PtLevel.PT_PGD).visits = _
    rw [visitPage_visits, hext]
    rfl
  · intro e he
    obtain ⟨hlv, hint⟩ := hP e he
    refine ⟨hlv, ?_⟩
    intro hc
    rw [hc] at hint
    exact hroot hint

/-- Concrete pagetable for the C9 witness. -/
def pt0 : PageTable where
  rootPage := 9
  pgdPresent := fun i => i = 0
  pudPage := fun _ => 1
  pudPresent := fun _ j => j = 0
  pmdPage := fun _ _ => 2
  pmdPresent := fun _ _ _ => false
  ptePage := fun _ _ _ => 3

/-- Concrete walk bounds for the C9 witness. -/
def wc0 : WalkCfg where
  holeLow := 100
  holeHigh := 200
  pgdLimit := 0
  pudLimit := 0
  pmdLimit := 0

theorem claim_C9_witness :
    ∃ pre, (__xen_pgd_walk wc0 pt0 (fun (n : Nat) _ _ => (n + 1, false)) 0).2.2 =
        pre ++ [(pt0.rootPage, PtLevel.PT_PGD)] ∧
      ∀ e ∈ pre, e.2 ≠ PtLevel.PT_PGD ∧ e.1 ≠ pt0.rootPage :=
  claim_C9_walk_root_last wc0 pt0 (fun n _ _ => (n + 1, false)) 0
    (by rintro (⟨i, h⟩ | ⟨i, j, h⟩ | ⟨i, j, k, h⟩) <;> simp [pt0] at h)

/-- Folding the walk callback over an explicit visit sequence,
threading state and the accumulated flush flag. -/
def runVisits {σ : Type} (f : σ → Nat → PtLevel → σ × Bool) :
    σ → Bool → List (Nat × PtLevel) → σ × Bool
  | s, fl, [] => (s, fl)
  | s, fl, (p, lv) :: rest => runVisits f (f s p lv).1 (fl || (f s p lv).2) rest

theorem runVisits_append {σ : Type} (f : σ → Nat → PtLevel → σ × Bool) :
    ∀ l1 l2 s fl, runVisits f s fl (l1 ++ l2) =
      runVisits f (runVisits f s fl l1).1 (runVisits f s fl l1).2 l2 := by
  intro l1
  induction l1 with
  | nil =>
    intro l2 s fl
    rfl
  | cons x xs ih =>
    intro l2 s fl
    obtain ⟨p, lv⟩ := x
    rw [List.cons_append]
    rw [runVisits, runVisits]
    exact ih l2 _ _

theorem foldl_run {σ : Type} (f : σ → Nat → PtLevel → σ × Bool)
    (g : WalkAcc σ → Nat → WalkAcc σ)
    (hg : ∀ a i, ∃ ext, (g a i).visits = a.visits ++ ext ∧
      (g a i).st = (runVisits f a.st a.flush ext).1 ∧
      (g a i).flush = (runVisits f a.st a.flush ext).2) :
    ∀ l (a : WalkAcc σ), ∃ ext, (List.foldl g a l).visits = a.visits ++ ext ∧
      (List.foldl g a l).st = (runVisits f a.st a.flush ext).1 ∧
      (List.foldl g a l).flush = (runVisits f a.st a.flush ext).2 := by
  intro l
  induction l with
  | nil =>
    intro a
    exact ⟨[], by simp, rfl, rfl⟩
  | cons x xs ih =>
    intro a
    obtain ⟨e1, hv1, hs1, hf1⟩ := hg a x
    obtain ⟨e2, hv2, hs2, hf2⟩ := ih (g a x)
    refine ⟨e1 ++ e2, ?_, ?_, ?_⟩
    · rw [List.foldl_cons, hv2, hv1, List.append_assoc]
    · rw [List.foldl_cons, hs2, hs1, hf1, runVisits_append]
    · rw [List.foldl_cons, hf2, hs1, hf1, runVisits_append]

theorem visitPage_run {σ : Type} (f : σ → Nat → PtLevel → σ × Bool) (a : WalkAcc σ)
    (pg : Nat) (lv : PtLevel) :
    (visitPage f a pg lv).st = (runVisits f a.st a.flush [(pg, lv)]).1 ∧
    (visitPage f a pg lv).flush = (runVisits f a.st a.flush [(pg, lv)]).2 :=
  ⟨rfl, rfl⟩

theorem pmdLoop_run {σ : Type} (cfg : WalkCfg) (pt : PageTable)
    (f : σ → Nat → PtLevel → σ × Bool) (pgdidx pudidx : Nat) (a : WalkAcc σ) :
    ∃ ext, (pmdLoop cfg pt f pgdidx pudidx a).visits = a.visits ++ ext ∧
      (pmdLoop cfg pt f pgdidx pudidx a).st = (runVisits f a.st a.flush ext).1 ∧
      (pmdLoop cfg pt f pgdidx pudidx a).flush = (runVisits f a.st a.flush ext).2 := by
  apply foldl_run
  intro a i
  by_cases h1 : a.stopped
  · exact ⟨[], by simp [h1], by simp [h1, runVisits], by simp [h1, runVisits]⟩
  · rw [if_neg h1]
    by_cases h2 : pgdidx = cfg.pgdLimit ∧ pudidx = cfg.pudLimit ∧ cfg.pmdLimit < i
    · exact ⟨[], by rw [if_pos h2]; simp, by rw [if_pos h2]; rfl, by rw [if_pos h2]; rfl⟩
    · rw [if_neg h2]
      by_cases h3 : pt.pmdPresent pgdidx pudidx i = false
      · exact ⟨[], by rw [if_pos h3]; simp, by rw [if_pos h3]; rfl, by rw [if_pos h3]; rfl⟩
      · rw [if_neg h3]
        exact ⟨[(pt.ptePage pgdidx pudidx i, PtLevel.PT_PTE)], rfl, rfl, rfl⟩

theorem pudLoop_run {σ : Type} (cfg : WalkCfg) (pt : PageTable)
    (f : σ → Nat → PtLevel → σ × Bool) (pgdidx : Nat) (a : WalkAcc σ) :
    ∃ ext, (pudLoop cfg pt f pgdidx a).visits = a.visits ++ ext ∧
      (pudLoop cfg pt f pgdidx a).st = (runVisits f a.st a.flush ext).1 ∧
      (pudLoop cfg pt f pgdidx a).flush = (runVisits f a.st a.flush ext).2 := by
  apply foldl_run
  intro a i
  by_cases h1 : a.stopped
  · exact ⟨[], by simp [h1], by simp [h1, runVisits], by simp [h1, runVisits]⟩
  · rw [if_neg h1]
    by_cases h2 : pgdidx = cfg.pgdLimit ∧ cfg.pudLimit < i
    · exact ⟨[], by rw [if_pos h2]; simp, by rw [if_pos h2]; rfl, by rw [if_pos h2]; rfl⟩
    · rw [if_neg h2]
      by_cases h3 : pt.pudPresent pgdidx i = false
      · exact ⟨[], by rw [if_pos h3]; simp, by rw [if_pos h3]; rfl, by rw [if_pos h3]; rfl⟩
      · rw [if_neg h3]
        obtain ⟨ext, hv, hs, hf⟩ :=
          pmdLoop_run cfg pt f pgdidx i (visitPage f a (pt.pmdPage pgdidx i) PtLevel.PT_PMD)
        refine ⟨(pt.pmdPage pgdidx i, PtLevel.PT_PMD) :: ext, ?_, ?_, ?_⟩
        · rw [hv, visitPage_visits, List.append_assoc]
          rfl
        · rw [hs]
          rfl
        · rw [hf]
          rfl

theorem pgdLoop_run {σ : Type} (cfg : WalkCfg) (pt : PageTable)
    (f : σ → Nat → PtLevel → σ × Bool) (a : WalkAcc σ) :
    ∃ ext, (pgdLoop cfg pt f a).visits = a.visits ++ ext ∧
      (pgdLoop cfg pt f a).st = (runVisits f a.st a.flush ext).1 ∧
      (pgdLoop cfg pt f a).flush = (runVisits f a.st a.flush ext).2 := by
  apply foldl_run
  intro a i
  by_cases h1 : a.stopped
  · exact ⟨[], by simp [h1], by simp [h1, runVisits], by simp [h1, runVisits]⟩
  · rw [if_neg h1]
    by_cases h2 : cfg.holeLow ≤ i ∧ i < cfg.holeHigh
    · exact ⟨[], by rw [if_pos h2]; simp, by rw [if_pos h2]; rfl, by rw [if_pos h2]; rfl⟩
    · rw [if_neg h2]
      by_cases h3 : pt.pgdPresent i = false
      · exact ⟨[], by rw [if_pos h3]; simp, by rw [if_pos h3]; rfl, by rw [if_pos h3]; rfl⟩
      · rw [if_neg h3]
        obtain ⟨ext, hv, hs, hf⟩ :=
          pudLoop_run cfg pt f i (visitPage f a (pt.pudPage i) PtLevel.PT_PUD)
        refine ⟨(pt.pudPage i, PtLevel.PT_PUD) :: ext, ?_, ?_, ?_⟩
        · rw [hv, visitPage_visits, List.append_assoc]
          rfl
        · rw [hs]
          rfl
        · rw [hf]
          rfl

theorem foldl_rel {σ σ' : Type} (g : WalkAcc σ → Nat → WalkAcc σ)
    (g' : WalkAcc σ' → Nat → WalkAcc σ')
    (hg : ∀ (a : WalkAcc σ) (b : WalkAcc σ') i, a.visits = b.visits → a.stopped = b.stopped →
      (g a i).visits = (g' b i).visits ∧ (g a i).stopped = (g' b i).stopped) :
    ∀ l (a : WalkAcc σ) (b : WalkAcc σ'), a.visits = b.visits → a.stopped = b.stopped →
      (List.foldl g a l).visits = (List.foldl g' b l).visits ∧
      (List.foldl g a l).stopped = (List.foldl g' b l).stopped := by
  intro l
  induction l with
  | nil =>
    intro a b hv hs
    exact ⟨hv, hs⟩
  | cons x xs ih =>
    intro a b hv hs
    obtain ⟨hv1, hs1⟩ := hg a b x hv hs
    exact ih (g a x) (g' b x) hv1 hs1

theorem pmdLoop_rel {σ σ' : Type} (cfg : WalkCfg) (pt : PageTable)
    (f : σ → Nat → PtLevel → σ × Bool) (f' : σ' → Nat → PtLevel → σ' × Bool)
    (pgdidx pudidx : Nat) :
    ∀ (a : WalkAcc σ) (b : WalkAcc σ'), a.visits = b.visits → a.stopped = b.stopped →
      (pmdLoop cfg pt f pgdidx pudidx a).visits = (pmdLoop cfg pt f' pgdidx pudidx b).visits ∧
      (pmdLoop cfg pt f pgdidx pudidx a).stopped = (pmdLoop cfg pt f' pgdidx pudidx b).stopped := by
  apply foldl_rel
  intro a b i hv hs
  by_cases h1 : a.stopped
  · have h1b : b.stopped = true := by rw [← hs]; exact h1
    rw [if_pos h1, if_pos h1b]
    exact ⟨hv, hs⟩
  · have h1b : ¬b.stopped = true := by rw [← hs]; exact h1
    rw [if_neg h1, if_neg h1b]
    by_cases h2 : pgdidx = cfg.pgdLimit ∧ pudidx = cfg.pudLimit ∧ cfg.pmdLimit < i
    · rw [if_pos h2, if_pos h2]
      exact ⟨hv, rfl⟩
    · rw [if_neg h2, if_neg h2]
      by_cases h3 : pt.pmdPresent pgdidx pudidx i = false
      · rw [if_pos h3, if_pos h3]
        exact ⟨hv, hs⟩
      · rw [if_neg h3, if_neg h3]
        refine ⟨?_, hs⟩
        rw [visitPage_visits, visitPage_visits, hv]

theorem pudLoop_rel {σ σ' : Type} (cfg : WalkCfg) (pt : PageTable)
    (f : σ → Nat → PtLevel → σ × Bool) (f' : σ' → Nat → PtLevel → σ' × Bool)
    (pgdidx : Nat) :
    ∀ (a : WalkAcc σ) (b : WalkAcc σ'), a.visits = b.visits → a.stopped = b.stopped →
      (pudLoop cfg pt f pgdidx a).visits = (pudLoop cfg pt f' pgdidx b).visits ∧
      (pudLoop cfg pt f pgdidx a).stopped = (pudLoop cfg pt f' pgdidx b).stopped := by
  apply foldl_rel
  intro a b i hv hs
  by_cases h1 : a.stopped
  · have h1b : b.stopped = true := by rw [← hs]; exact h1
    rw [if_pos h1, if_pos h1b]
    exact ⟨hv, hs⟩
  · have h1b : ¬b.stopped = true := by rw [← hs]; exact h1
    rw [if_neg h1, if_neg h1b]
    by_cases h2 : pgdidx = cfg.pgdLimit ∧ cfg.pudLimit < i
    · rw [if_pos h2, if_pos h2]
      exact ⟨hv, rfl⟩
    · rw [if_neg h2, if_neg h2]
      by_cases h3 : pt.pudPresent pgdidx i = false
      · rw [if_pos h3, if_pos h3]
        exact ⟨hv, hs⟩
      · rw [if_neg h3, if_neg h3]
        apply pmdLoop_rel
        · rw [visitPage_visits, visitPage_visits, hv]
        · exact hs

theorem pgdLoop_rel {σ σ' : Type} (cfg : WalkCfg) (pt : PageTable)
    (f : σ → Nat → PtLevel → σ × Bool) (f' : σ' → Nat → PtLevel → σ' × Bool) :
    ∀ (a : WalkAcc σ) (b : WalkAcc σ'), a.visits = b.visits → a.stopped = b.stopped →
      (pgdLoop cfg pt f a).visits = (pgdLoop cfg pt f' b).visits ∧
      (pgdLoop cfg pt f a).stopped = (pgdLoop cfg pt f' b).stopped := by
  apply foldl_rel
  intro a b i hv hs
  by_cases h1 : a.stopped
  · have h1b : b.stopped = true := by rw [← hs]; exact h1
    rw [if_pos h1, if_pos h1b]
    exact ⟨hv, hs⟩
  · have h1b : ¬b.stopped = true := by rw [← hs]; exact h1
    rw [if_neg h1, if_neg h1b]
    by_cases h2 : cfg.holeLow ≤ i ∧ i < cfg.holeHigh
    · rw [if_pos h2, if_pos h2]
      exact ⟨hv, hs⟩
    · rw [if_neg h2, if_neg h2]
      by_cases h3 : pt.pgdPresent i = false
      · rw [if_pos h3, if_pos h3]
        exact ⟨hv, hs⟩
      · rw [if_neg h3, if_neg h3]
        apply pudLoop_rel
        · rw [visitPage_visits, visitPage_visits, hv]
        · exact hs

/-- The visit sequence of the walk, which depends only on the
pagetable shape and the index bounds, not on the callback. -/
def walkList (cfg : WalkCfg) (pt : PageTable) : List (Nat × PtLevel) :=
  (__xen_pgd_walk cfg pt (fun (u : Unit) _ _ => (u, false)) ()).2.2

theorem walk_run {σ : Type} (cfg : WalkCfg) (pt : PageTable)
    (f : σ → Nat → PtLevel → σ × Bool) (s0 : σ) :
    (__xen_pgd_walk cfg pt f s0).2.2 = walkList cfg pt ∧
    (__xen_pgd_walk cfg pt f s0).1 = (runVisits f s0 false (walkList cfg pt)).1 ∧
    (__xen_pgd_walk cfg pt f s0).2.1 = (runVisits f s0 false (walkList cfg pt)).2 := by
  obtain ⟨ext, hv, hs, hf⟩ :=
    pgdLoop_run cfg pt f { st := s0, flush := false, visits := [], stopped := false }
  obtain ⟨extU, hvU, hsU, hfU⟩ :=
    pgdLoop_run cfg pt (fun (u : Unit) _ _ => (u, false))
      { st := (), flush := false, visits := [], stopped := false }
  have hrel := pgdLoop_rel cfg pt f (fun (u : Unit) _ _ => (u, false))
    { st := s0, flush := false, visits := [], stopped := false }
    { st := (), flush := false, visits := [], stopped := false } rfl rfl
  have hexts : ext = extU := by
    have := hrel.1
    rw [hv, hvU] at this
    simpa using this
  have hwl : walkList cfg pt = ext ++ [(pt.rootPage, PtLevel.PT_PGD)] := by
    show (visitPage (fun (u : Unit) _ _ => (u, false))
      (pgdLoop cfg pt (fun (u : Unit) _ _ => (u, false))
        { st := (), flush := false, visits := [], stopped := false })
      pt.rootPage PtLevel.PT_PGD).visits = _
    rw [visitPage_visits, hvU, ← hexts]
    rfl
  refine ⟨?_, ?_, ?_⟩
  · show (visitPage f (pgdLoop cfg pt f _) pt.rootPage PtLevel.PT_PGD).visits = _
    rw [visitPage_visits, hv, hwl]
    rfl
  · show (visitPage f (pgdLoop cfg pt f _) pt.rootPage PtLevel.PT_PGD).st = _
    rw [hwl, runVisits_append]
    show (f (pgdLoop cfg pt f _).st pt.rootPage PtLevel.PT_PGD).1 = _
    rw [hs]
    rfl
  · show (visitPage f (pgdLoop cfg pt f _) pt.rootPage PtLevel.PT_PGD).flush = _
    rw [hwl, runVisits_append]
    show ((pgdLoop cfg pt f _).flush ||
      (f (pgdLoop cfg pt f _).st pt.rootPage PtLevel.PT_PGD).2) = _
    rw [hs, hf]
    rfl

/-- MMUEXT hypercall command codes used by xen_do_pin. -/
def MMUEXT_PIN_L1_TABLE : Nat := 0

def MMUEXT_PIN_L2_TABLE : Nat := 1

def MMUEXT_PIN_L3_TABLE : Nat := 2

def MMUEXT_PIN_L4_TABLE : Nat := 3

def MMUEXT_UNPIN_TABLE : Nat := 4

/-- Operations pushed into the multicall batch by the pin/unpin path:
a MULTI_update_va_mapping making a page read-only or read-write, or a
xen_do_pin MMUEXT operation (pin/unpin of the page, identified here by
its page id standing in for its pfn). -/
inductive McOp where
  | mapRO (page : Nat)
  | mapRW (page : Nat)
  | hyperPin (cmd : Nat) (page : Nat)
deriving DecidableEq, Repr

/-- Environment of the pin controller: which pages are highmem,
whether split pte locks are configured (USE_SPLIT_PTLOCKS), and
xen_get_user_pgd of the walked root (none when no user pagetable is
attached). -/
structure PinCfg where
  highMem : Nat → Bool
  splitPtlocks : Bool
  userPgd : Option Nat

/-- Per-page pinned flags plus the sequence of batch operations
emitted so far. -/
structure PinState where
  pinned : Nat → Bool
  ops : List McOp

def emit (s : PinState) (o : McOp) : PinState :=
  { s with ops := s.ops ++ [o] }

/-- Model of xen_pin_page: TestSetPagePinned, then: already pinned →
no work, no flush; unpinned highmem page → flush needed, protection
change deferred; otherwise emit the read-only protection change and,
for a PTE page under split pte locks, the per-page MMUEXT pin request
(the lock acquire/release pair around them is not modelled). -/
def xen_pin_page (pc : PinCfg) (s : PinState) (page : Nat) (lv : PtLevel) :
    PinState × Bool :=
  let pgfl := s.pinned page
  let s1 : PinState := { s with pinned := upd s.pinned page true }
  if pgfl then (s1, false)
  else if pc.highMem page then (s1, true)
  else
    let s2 := emit s1 (McOp.mapRO page)
    if pc.splitPtlocks ∧ lv = PtLevel.PT_PTE then
      (emit s2 (McOp.hyperPin MMUEXT_PIN_L1_TABLE page), false)
    else
      (s2, false)

/-- Model of xen_unpin_page: TestClearPagePinned; if the page was
pinned and is not highmem, emit (for a PTE page under split locks) the
MMUEXT unpin request and then the read-write protection restore.
Never requests a flush. -/
def xen_unpin_page (pc : PinCfg) (s : PinState) (page : Nat) (lv : PtLevel) :
    PinState × Bool :=
  let pgfl := s.pinned page
  let s1 : PinState := { s with pinned := upd s.pinned page false }
  if pgfl = true ∧ pc.highMem page = false then
    let s2 := if pc.splitPtlocks ∧ lv = PtLevel.PT_PTE then
        emit s1 (McOp.hyperPin MMUEXT_UNPIN_TABLE page)
      else s1
    (emit s2 (McOp.mapRW page), false)
  else
    (s1, false)

/-- Model of __xen_pgd_pin for the 64-bit configuration: walk the
table with xen_pin_page (the flush/kmap_flush_unused resubmission path
changes no modelled state), then unconditionally issue the root
MMUEXT_PIN_L4_TABLE request, and when a user pagetable is attached,
xen_pin_page it and issue its own unconditional L4 pin request. -/
def __xen_pgd_pin (wc : WalkCfg) (pc : PinCfg) (pt : PageTable) (s : PinState) : PinState :=
  let r := __xen_pgd_walk wc pt (xen_pin_page pc) s
  let s1 := emit r.1 (McOp.hyperPin MMUEXT_PIN_L4_TABLE pt.rootPage)
  match pc.userPgd with
  | some u => emit (xen_pin_page pc s1 u PtLevel.PT_PGD).1 (McOp.hyperPin MMUEXT_PIN_L4_TABLE u)
  | none => s1

/-- Model of __xen_pgd_unpin for the 64-bit configuration:
unconditionally issue the root MMUEXT_UNPIN_TABLE request, then for an
attached user pagetable issue its unpin request and xen_unpin_page it,
then walk the table with xen_unpin_page. -/
def __xen_pgd_unpin (wc : WalkCfg) (pc : PinCfg) (pt : PageTable) (s : PinState) : PinState :=
  let s1 := emit s (McOp.hyperPin MMUEXT_UNPIN_TABLE pt.rootPage)
  let s2 := match pc.userPgd with
    | some u =>
      (xen_unpin_page pc (emit s1 (McOp.hyperPin MMUEXT_UNPIN_TABLE u)) u PtLevel.PT_PGD).1
    | none => s1
  (__xen_pgd_walk wc pt (xen_unpin_page pc) s2).1

theorem xen_pin_page_pinned (pc : PinCfg) (s : PinState) (page : Nat) (lv : PtLevel) :
    (xen_pin_page pc s page lv).1.pinned = upd s.pinned page true := by
  simp only [xen_pin_page, emit]
  split
  · rfl
  split
  · rfl
  split
  · rfl
  · rfl

theorem xen_pin_page_noop (pc : PinCfg) (s : PinState) (page : Nat) (lv : PtLevel)
    (h : s.pinned page = true) :
    xen_pin_page pc s page lv = ({ s with pinned := upd s.pinned page true }, false) := by
  simp only [xen_pin_page, emit]
  rw [if_pos h]

theorem xen_unpin_page_pinned (pc : PinCfg) (s : PinState) (page : Nat) (lv : PtLevel) :
    (xen_unpin_page pc s page lv).1.pinned = upd s.pinned page false := by
  simp only [xen_unpin_page, emit]
  split
  · split
    · rfl
    · rfl
  · rfl

theorem xen_unpin_page_noop (pc : PinCfg) (s : PinState) (page : Nat) (lv : PtLevel)
    (h : s.pinned page = false) :
    xen_unpin_page pc s page lv = ({ s with pinned := upd s.pinned page false }, false) := by
  simp only [xen_unpin_page, emit]
  rw [if_neg]
  intro hc
  rw [h] at hc
  exact absurd hc.1 (by decide)

theorem runVisits_pin_sets (pc : PinCfg) :
    ∀ L (s : PinState) fl,
      (∀ e ∈ L, (runVisits (xen_pin_page pc) s fl L).1.pinned e.1 = true) ∧
      (∀ q, s.pinned q = true → (runVisits (xen_pin_page pc) s fl L).1.pinned q = true) := by
  intro L
  induction L with
  | nil =>
    intro s fl
    exact ⟨by simp, fun q hq => hq⟩
  | cons e rest ih =>
    intro s fl
    obtain ⟨p, lv⟩ := e
    rw [runVisits]
    obtain ⟨ih1, ih2⟩ := ih (xen_pin_page pc s p lv).1 (fl || (xen_pin_page pc s p lv).2)
    constructor
    · intro e he
      rcases List.mem_cons.mp he with h | h
      · subst h
        apply ih2
        rw [xen_pin_page_pinned, upd_self]
      · exact ih1 e h
    · intro q hq
      apply ih2
      rw [xen_pin_page_pinned]
      by_cases h1 : q = p
      · rw [h1, upd_self]
      · rw [upd_other _ _ _ _ h1]
        exact hq

theorem runVisits_pin_noop (pc : PinCfg) :
    ∀ L (s : PinState) fl, (∀ e ∈ L, s.pinned e.1 = true) →
      (∀ q, (runVisits (xen_pin_page pc) s fl L).1.pinned q = s.pinned q) ∧
      (runVisits (xen_pin_page pc) s fl L).1.ops = s.ops ∧
      (runVisits (xen_pin_page pc) s fl L).2 = fl := by
  intro L
  induction L with
  | nil =>
    intro s fl _
    exact ⟨fun q => rfl, rfl, rfl⟩
  | cons e rest ih =>
    intro s fl hall
    obtain ⟨p, lv⟩ := e
    have hp : s.pinned p = true := hall (p, lv) (List.mem_cons_self _ _)
    rw [runVisits, xen_pin_page_noop pc s p lv hp]
    have hrest : ∀ e ∈ rest, ({ s with pinned := upd s.pinned p true } : PinState).pinned e.1 = true := by
      intro e he
      by_cases h1 : e.1 = p
      · show upd s.pinned p true e.1 = true
        rw [h1, upd_self]
      · show upd s.pinned p true e.1 = true
        rw [upd_other _ _ _ _ h1]
        exact hall e (List.mem_cons_of_mem _ he)
    obtain ⟨ih1, ih2, ih3⟩ := ih { s with pinned := upd s.pinned p true } (fl || false) hrest
    refine ⟨?_, ih2, by rw [ih3, Bool.or_false]⟩
    intro q
    rw [ih1]
    by_cases h1 : q = p
    · show upd s.pinned p true q = s.pinned q
      rw [h1, upd_self, hp]
    · show upd s.pinned p true q = s.pinned q
      rw [upd_other _ _ _ _ h1]

theorem runVisits_unpin_clears (pc : PinCfg) :
    ∀ L (s : PinState) fl,
      (∀ e ∈ L, (runVisits (xen_unpin_page pc) s fl L).1.pinned e.1 = false) ∧
      (∀ q, s.pinned q = false → (runVisits (xen_unpin_page pc) s fl L).1.pinned q = false) := by
  intro L
  induction L with
  | nil =>
    intro s fl
    exact ⟨by simp, fun q hq => hq⟩
  | cons e rest ih =>
    intro s fl
    obtain ⟨p, lv⟩ := e
    rw [runVisits]
    obtain ⟨ih1, ih2⟩ := ih (xen_unpin_page pc s p lv).1 (fl || (xen_unpin_page pc s p lv).2)
    constructor
    · intro e he
      rcases List.mem_cons.mp he with h | h
      · subst h
        apply ih2
        rw [xen_unpin_page_pinned, upd_self]
      · exact ih1 e h
    · intro q hq
      apply ih2
      rw [xen_unpin_page_pinned]
      by_cases h1 : q = p
      · rw [h1, upd_self]
      · rw [upd_other _ _ _ _ h1]
        exact hq

theorem runVisits_unpin_noop (pc : PinCfg) :
    ∀ L (s : PinState) fl, (∀ e ∈ L, s.pinned e.1 = false) →
      (∀ q, (runVisits (xen_unpin_page pc) s fl L).1.pinned q = s.pinned q) ∧
      (runVisits (xen_unpin_page pc) s fl L).1.ops = s.ops ∧
      (runVisits (xen_unpin_page pc) s fl L).2 = fl := by
  intro L
  induction L with
  | nil =>
    intro s fl _
    exact ⟨fun q => rfl, rfl, rfl⟩
  | cons e rest ih =>
    intro s fl hall
    obtain ⟨p, lv⟩ := e
    have hp : s.pinned p = false := hall (p, lv) (List.mem_cons_self _ _)
    rw [runVisits, xen_unpin_page_noop pc s p lv hp]
    have hrest : ∀ e ∈ rest, ({ s with pinned := upd s.pinned p false } : PinState).pinned e.1 = false := by
      intro e he
      by_cases h1 : e.1 = p
      · show upd s.pinned p false e.1 = false
        rw [h1, upd_self]
      · show upd s.pinned p false e.1 = false
        rw [upd_other _ _ _ _ h1]
        exact hall e (List.mem_cons_of_mem _ he)
    obtain ⟨ih1, ih2, ih3⟩ := ih { s with pinned := upd s.pinned p false } (fl || false) hrest
    refine ⟨?_, ih2, by rw [ih3, Bool.or_false]⟩
    intro q
    rw [ih1]
    by_cases h1 : q = p
    · show upd s.pinned p false q = s.pinned q
      rw [h1, upd_self, hp]
    · show upd s.pinned p false q = s.pinned q
      rw [upd_other _ _ _ _ h1]

theorem emit_pinned (s : PinState) (o : McOp) : (emit s o).pinned = s.pinned := rfl

theorem emit_ops (s : PinState) (o : McOp) : (emit s o).ops = s.ops ++ [o] := rfl

theorem pgd_pin_eq_none (wc : WalkCfg) (pc : PinCfg) (pt : PageTable) (s : PinState)
    (h : pc.userPgd = none) :
    __xen_pgd_pin wc pc pt s =
      emit (__xen_pgd_walk wc pt (xen_pin_page pc) s).1
        (McOp.hyperPin MMUEXT_PIN_L4_TABLE pt.rootPage) := by
  unfold __xen_pgd_pin
  rw [h]

theorem pgd_pin_eq_some (wc : WalkCfg) (pc : PinCfg) (pt : PageTable) (s : PinState)
    (u : Nat) (h : pc.userPgd = some u) :
    __xen_pgd_pin wc pc pt s =
      emit (xen_pin_page pc
        (emit (__xen_pgd_walk wc pt (xen_pin_page pc) s).1
          (McOp.hyperPin MMUEXT_PIN_L4_TABLE pt.rootPage)) u PtLevel.PT_PGD).1
        (McOp.hyperPin MMUEXT_PIN_L4_TABLE u) := by
  unfold __xen_pgd_pin
  rw [h]

theorem pgd_unpin_eq_none (wc : WalkCfg) (pc : PinCfg) (pt : PageTable) (s : PinState)
    (h : pc.userPgd = none) :
    __xen_pgd_unpin wc pc pt s =
      (__xen_pgd_walk wc pt (xen_unpin_page pc)
        (emit s (McOp.hyperPin MMUEXT_UNPIN_TABLE pt.rootPage))).1 := by
  unfold __xen_pgd_unpin
  rw [h]

theorem pgd_unpin_eq_some (wc : WalkCfg) (pc : PinCfg) (pt : PageTable) (s : PinState)
    (u : Nat) (h : pc.userPgd = some u) :
    __xen_pgd_unpin wc pc pt s =
      (__xen_pgd_walk wc pt (xen_unpin_page pc)
        (xen_unpin_page pc
          (emit (emit s (McOp.hyperPin MMUEXT_UNPIN_TABLE pt.rootPage))
            (McOp.hyperPin MMUEXT_UNPIN_TABLE u)) u PtLevel.PT_PGD).1).1 := by
  unfold __xen_pgd_unpin
  rw [h]

/-- After one __xen_pgd_pin call every walked page is pinned, and so is
the user root when one is attached. -/
theorem pin_call_props (wc : WalkCfg) (pc : PinCfg) (pt : PageTable) (s0 : PinState) :
    (∀ e ∈ walkList wc pt, (__xen_pgd_pin wc pc pt s0).pinned e.1 = true) ∧
    (∀ u, pc.userPgd = some u → (__xen_pgd_pin wc pc pt s0).pinned u = true) := by
  obtain ⟨_, hst, _⟩ := walk_run wc pt (xen_pin_page pc) s0
  obtain ⟨h1, _⟩ := runVisits_pin_sets pc (walkList wc pt) s0 false
  have hW : ∀ e ∈ walkList wc pt,
      (__xen_pgd_walk wc pt (xen_pin_page pc) s0).1.pinned e.1 = true := by
    intro e he
    rw [hst]
    exact h1 e he
  cases hU : pc.userPgd with
  | none =>
    rw [pgd_pin_eq_none wc pc pt s0 hU]
    exact ⟨fun e he => hW e he, fun u h => Option.noConfusion h⟩
  | some u =>
    rw [pgd_pin_eq_some wc pc pt s0 u hU]
    constructor
    · intro e he
      rw [emit_pinned, xen_pin_page_pinned, emit_pinned]
      by_cases h2 : e.1 = u
      · rw [h2, upd_self]
      · rw [upd_other _ _ _ _ h2]
        exact hW e he
    · intro v hv
      injection hv with hv'
      rw [emit_pinned, xen_pin_page_pinned, ← hv', upd_self]

/-- Second __xen_pgd_pin call from a state where everything the call
touches is already pinned: the flags are unchanged and the only new
batch operations are the unconditional root (and user-root) L4 pin
requests. -/
theorem pin_second (wc : WalkCfg) (pc : PinCfg) (pt : PageTable) (s1 : PinState)
    (hL : ∀ e ∈ walkList wc pt, s1.pinned e.1 = true)
    (hu : ∀ u, pc.userPgd = some u → s1.pinned u = true) :
    (∀ p, (__xen_pgd_pin wc pc pt s1).pinned p = s1.pinned p) ∧
    (__xen_pgd_pin wc pc pt s1).ops = s1.ops ++
      McOp.hyperPin MMUEXT_PIN_L4_TABLE pt.rootPage ::
        (match pc.userPgd with
         | some u => [McOp.hyperPin MMUEXT_PIN_L4_TABLE u]
         | none => []) := by
  obtain ⟨_, hst, _⟩ := walk_run wc pt (xen_pin_page pc) s1
  obtain ⟨hp, hops, _⟩ := runVisits_pin_noop pc (walkList wc pt) s1 false hL
  have hWp : ∀ q, (__xen_pgd_walk wc pt (xen_pin_page pc) s1).1.pinned q = s1.pinned q := by
    intro q
    rw [hst]
    exact hp q
  have hWops : (__xen_pgd_walk wc pt (xen_pin_page pc) s1).1.ops = s1.ops := by
    rw [hst]
    exact hops
  cases hU : pc.userPgd with
  | none =>
    rw [pgd_pin_eq_none wc pc pt s1 hU]
    refine ⟨fun p => ?_, ?_⟩
    · rw [emit_pinned]
      exact hWp p
    · rw [emit_ops, hWops]
  | some u =>
    have hu1 : s1.pinned u = true := hu u hU
    rw [pgd_pin_eq_some wc pc pt s1 u hU]
    have hnoop := xen_pin_page_noop pc
      (emit (__xen_pgd_walk wc pt (xen_pin_page pc) s1).1
        (McOp.hyperPin MMUEXT_PIN_L4_TABLE pt.rootPage)) u PtLevel.PT_PGD
      (by rw [emit_pinned, hWp u]; exact hu1)
    rw [hnoop]
    refine ⟨fun p => ?_, ?_⟩
    · show upd (emit (__xen_pgd_walk wc pt (xen_pin_page pc) s1).1
        (McOp.hyperPin MMUEXT_PIN_L4_TABLE pt.rootPage)).pinned u true p = s1.pinned p
      rw [emit_pinned]
      by_cases h2 : p = u
      · rw [h2, upd_self]
        exact hu1.symm
      · rw [upd_other _ _ _ _ h2]
        exact hWp p
    · show ((__xen_pgd_walk wc pt (xen_pin_page pc) s1).1.ops ++
          [McOp.hyperPin MMUEXT_PIN_L4_TABLE pt.rootPage]) ++
          [McOp.hyperPin MMUEXT_PIN_L4_TABLE u] = _
      rw [hWops, List.append_assoc]
      rfl

/-- After one __xen_pgd_unpin call every walked page is unpinned, and
so is the user root when one is attached. -/
theorem unpin_call_props (wc : WalkCfg) (pc : PinCfg) (pt : PageTable) (s0 : PinState) :
    (∀ e ∈ walkList wc pt, (__xen_pgd_unpin wc pc pt s0).pinned e.1 = false) ∧
    (∀ u, pc.userPgd = some u → (__xen_pgd_unpin wc pc pt s0).pinned u = false) := by
  cases hU : pc.userPgd with
  | none =>
    rw [pgd_unpin_eq_none wc pc pt s0 hU]
    obtain ⟨_, hst, _⟩ := walk_run wc pt (xen_unpin_page pc)
      (emit s0 (McOp.hyperPin MMUEXT_UNPIN_TABLE pt.rootPage))
    obtain ⟨h1, _⟩ := runVisits_unpin_clears pc (walkList wc pt)
      (emit s0 (McOp.hyperPin MMUEXT_UNPIN_TABLE pt.rootPage)) false
    refine ⟨fun e he => ?_, fun u h => Option.noConfusion h⟩
    rw [hst]
    exact h1 e he
  | some u =>
    rw [pgd_unpin_eq_some wc pc pt s0 u hU]
    obtain ⟨_, hst, _⟩ := walk_run wc pt (xen_unpin_page pc)
      (xen_unpin_page pc
        (emit (emit s0 (McOp.hyperPin MMUEXT_UNPIN_TABLE pt.rootPage))
          (McOp.hyperPin MMUEXT_UNPIN_TABLE u)) u PtLevel.PT_PGD).1
    obtain ⟨h1, h2⟩ := runVisits_unpin_clears pc (walkList wc pt)
      (xen_unpin_page pc
        (emit (emit s0 (McOp.hyperPin MMUEXT_UNPIN_TABLE pt.rootPage))
          (McOp.hyperPin MMUEXT_UNPIN_TABLE u)) u PtLevel.PT_PGD).1 false
    constructor
    · intro e he
      rw [hst]
      exact h1 e he
    · intro v hv
      injection hv with hv'
      rw [hst, ← hv']
      apply h2
      rw [xen_unpin_page_pinned, upd_self]

/-- Second __xen_pgd_unpin call from a state where everything the call
touches is already unpinned: the flags are unchanged and the only new
batch operations are the unconditional root (and user-root)
MMUEXT_UNPIN_TABLE requests. -/
theorem unpin_second (wc : WalkCfg) (pc : PinCfg) (pt : PageTable) (s1 : PinState)
    (hL : ∀ e ∈ walkList wc pt, s1.pinned e.1 = false)
    (hu : ∀ u, pc.userPgd = some u → s1.pinned u = false) :
    (∀ p, (__xen_pgd_unpin wc pc pt s1).pinned p = s1.pinned p) ∧
    (__xen_pgd_unpin wc pc pt s1).ops = s1.ops ++
      McOp.hyperPin MMUEXT_UNPIN_TABLE pt.rootPage ::
        (match pc.userPgd with
         | some u => [McOp.hyperPin MMUEXT_UNPIN_TABLE u]
         | none => []) := by
  cases hU : pc.userPgd with
  | none =>
    rw [pgd_unpin_eq_none wc pc pt s1 hU]
    obtain ⟨_, hst, _⟩ := walk_run wc pt (xen_unpin_page pc)
      (emit s1 (McOp.hyperPin MMUEXT_UNPIN_TABLE pt.rootPage))
    have hL2 : ∀ e ∈ walkList wc pt,
        (emit s1 (McOp.hyperPin MMUEXT_UNPIN_TABLE pt.rootPage)).pinned e.1 = false := by
      intro e he
      rw [emit_pinned]
      exact hL e he
    obtain ⟨hp, hops, _⟩ := runVisits_unpin_noop pc (walkList wc pt)
      (emit s1 (McOp.hyperPin MMUEXT_UNPIN_TABLE pt.rootPage)) false hL2
    refine ⟨fun p => ?_, ?_⟩
    · rw [hst, hp p, emit_pinned]
    · rw [hst, hops, emit_ops]
  | some u =>
    have hu1 : s1.pinned u = false := hu u hU
    rw [pgd_unpin_eq_some wc pc pt s1 u hU]
    have hnoop := xen_unpin_page_noop pc
      (emit (emit s1 (McOp.hyperPin MMUEXT_UNPIN_TABLE pt.rootPage))
        (McOp.hyperPin MMUEXT_UNPIN_TABLE u)) u PtLevel.PT_PGD
      (by rw [emit_pinned, emit_pinned]; exact hu1)
    rw [hnoop]
    obtain ⟨_, hst, _⟩ := walk_run wc pt (xen_unpin_page pc)
      ({ emit (emit s1 (McOp.hyperPin MMUEXT_UNPIN_TABLE pt.rootPage))
          (McOp.hyperPin MMUEXT_UNPIN_TABLE u) with
        pinned := upd (emit (emit s1 (McOp.hyperPin MMUEXT_UNPIN_TABLE pt.rootPage))
          (McOp.hyperPin MMUEXT_UNPIN_TABLE u)).pinned u false } : PinState)
    have hs2p : ∀ q,
        ({ emit (emit s1 (McOp.hyperPin MMUEXT_UNPIN_TABLE pt.rootPage))
            (McOp.hyperPin MMUEXT_UNPIN_TABLE u) with
          pinned := upd (emit (emit s1 (McOp.hyperPin MMUEXT_UNPIN_TABLE pt.rootPage))
            (McOp.hyperPin MMUEXT_UNPIN_TABLE u)).pinned u false } : PinState).pinned q =
          s1.pinned q := by
      intro q
      show upd (emit (emit s1 (McOp.hyperPin MMUEXT_UNPIN_TABLE pt.rootPage))
        (McOp.hyperPin MMUEXT_UNPIN_TABLE u)).pinned u false q = s1.pinned q
      rw [emit_pinned, emit_pinned]
      by_cases h2 : q = u
      · rw [h2, upd_self]
        exact hu1.symm
      · rw [upd_other _ _ _ _ h2]
    have hL2 : ∀ e ∈ walkList wc pt,
        ({ emit (emit s1 (McOp.hyperPin MMUEXT_UNPIN_TABLE pt.rootPage))
            (McOp.hyperPin MMUEXT_UNPIN_TABLE u) with
          pinned := upd (emit (emit s1 (McOp.hyperPin MMUEXT_UNPIN_TABLE pt.rootPage))
            (McOp.hyperPin MMUEXT_UNPIN_TABLE u)).pinned u false } : PinState).pinned e.1 =
          false := by
      intro e he
      rw [hs2p]
      exact hL e he
    obtain ⟨hp, hops, _⟩ := runVisits_unpin_noop pc (walkList wc pt)
      ({ emit (emit s1 (McOp.hyperPin MMUEXT_UNPIN_TABLE pt.rootPage))
          (McOp.hyperPin MMUEXT_UNPIN_TABLE u) with
        pinned := upd (emit (emit s1 (McOp.hyperPin MMUEXT_UNPIN_TABLE pt.rootPage))
          (McOp.hyperPin MMUEXT_UNPIN_TABLE u)).pinned u false } : PinState) false hL2
    refine ⟨fun p => ?_, ?_⟩
    · rw [hst, hp p, hs2p]
    · rw [hst, hops]
      show (emit (emit s1 (McOp.hyperPin MMUEXT_UNPIN_TABLE pt.rootPage))
        (McOp.hyperPin MMUEXT_UNPIN_TABLE u)).ops = _
      rw [emit_ops, emit_ops, List.append_assoc]
      rfl

/-- C2: amended statement. Calling __xen_pgd_pin twice in a row on the
same root, from any starting state: the second call performs no
protection-flag changes (the pinned flags are pointwise unchanged) and
every per-page visit finds the pinned flag already set and does
nothing, but the second call is NOT fully equivalent to no call: it
still unconditionally issues the root-level MMUEXT_PIN_L4_TABLE
hypercall request (and the user-root one when a user pagetable is
attached), appended verbatim to the batch. The same holds for
__xen_pgd_unpin with MMUEXT_UNPIN_TABLE. The claim as stated (second
call issues no hypervisor pin request at all) is refuted by
claim_C2_counterexample. -/
theorem claim_C2_pin_unpin_second_call (wc : WalkCfg) (pc : PinCfg) (pt : PageTable)
    (s0 t0 : PinState) :
    (∀ p, (__xen_pgd_pin wc pc pt (__xen_pgd_pin wc pc pt s0)).pinned p =
        (__xen_pgd_pin wc pc pt s0).pinned p) ∧
    (__xen_pgd_pin wc pc pt (__xen_pgd_pin wc pc pt s0)).ops =
      (__xen_pgd_pin wc pc pt s0).ops ++
        McOp.hyperPin MMUEXT_PIN_L4_TABLE pt.rootPage ::
          (match pc.userPgd with
           | some u => [McOp.hyperPin MMUEXT_PIN_L4_TABLE u]
           | none => []) ∧
    (∀ p, (__xen_pgd_unpin wc pc pt (__xen_pgd_unpin wc pc pt t0)).pinned p =
        (__xen_pgd_unpin wc pc pt t0).pinned p) ∧
    (__xen_pgd_unpin wc pc pt (__xen_pgd_unpin wc pc pt t0)).ops =
      (__xen_pgd_unpin wc pc pt t0).ops ++
        McOp.hyperPin MMUEXT_UNPIN_TABLE pt.rootPage ::
          (match pc.userPgd with
           | some u => [McOp.hyperPin MMUEXT_UNPIN_TABLE u]
           | none => []) := by
  obtain ⟨hL1, hu1⟩ := pin_call_props wc pc pt s0
  obtain ⟨h1, h2⟩ := pin_second wc pc pt (__xen_pgd_pin wc pc pt s0) hL1 hu1
  obtain ⟨hL2, hu2⟩ := unpin_call_props wc pc pt t0
  obtain ⟨h3, h4⟩ := unpin_second wc pc pt (__xen_pgd_unpin wc pc pt t0) hL2 hu2
  exact ⟨h1, h2, h3, h4⟩

/-- Pin environment for the C2 counterexample: no highmem pages, no
split pte locks, no user pagetable. -/
def pc0 : PinCfg where
  highMem := fun _ => false
  splitPtlocks := false
  userPgd := none

/-- Initial pin state: nothing pinned, empty batch. -/
def pinInit : PinState where
  pinned := fun _ => false
  ops := []

/-- Pagetable for the C2 counterexample: root page 7 with no present
entries at all, so the walk visits nothing and per-page work is
trivially absent. -/
def ptC2 : PageTable where
  rootPage := 7
  pgdPresent := fun _ => false
  pudPage := fun _ => 0
  pudPresent := fun _ _ => false
  pmdPage := fun _ _ => 0
  pmdPresent := fun _ _ _ => false
  ptePage := fun _ _ _ => 0

/-- C2: counterexample to the claim as stated. On a concrete
configuration the first __xen_pgd_pin call makes the root
read-only and issues the root MMUEXT_PIN_L4_TABLE request, and the
second call — although every
per-page visit is a no-op — issues it AGAIN, so the batch after two
calls is strictly longer than after one: the second call is not
equivalent to no call, refuting "including issuing no hypervisor pin
request". Likewise the second __xen_pgd_unpin issues a second root
MMUEXT_UNPIN_TABLE request. -/
theorem claim_C2_counterexample :
    (__xen_pgd_pin wc0 pc0 ptC2 pinInit).ops =
      [McOp.mapRO 7, McOp.hyperPin MMUEXT_PIN_L4_TABLE 7] ∧
    (__xen_pgd_pin wc0 pc0 ptC2 (__xen_pgd_pin wc0 pc0 ptC2 pinInit)).ops =
      [McOp.mapRO 7, McOp.hyperPin MMUEXT_PIN_L4_TABLE 7,
       McOp.hyperPin MMUEXT_PIN_L4_TABLE 7] ∧
    (__xen_pgd_unpin wc0 pc0 ptC2 pinInit).ops =
      [McOp.hyperPin MMUEXT_UNPIN_TABLE 7] ∧
    (__xen_pgd_unpin wc0 pc0 ptC2 (__xen_pgd_unpin wc0 pc0 ptC2 pinInit)).ops =
      [McOp.hyperPin MMUEXT_UNPIN_TABLE 7, McOp.hyperPin MMUEXT_UNPIN_TABLE 7] := by
  refine ⟨by decide, by decide, by decide, by decide⟩

/-- Environment of the pmd/pud/pgd setters: xen_page_pinned of the
page containing a pointer (pinnedPage of pageOf), the
machine address arbitrary_virt_to_machine returns for a pointer, and
xen_get_user_pgd (none when no user pagetable is attached to the pgd
the pointer lives in). -/
structure MMCfg where
  pinnedPage : Nat → Bool
  pageOf : Nat → Nat
  machOf : Nat → Nat
  userPgd : Nat → Option Nat

/-- Machine state seen by the setters: directly-addressable memory,
the mmu_update records of the open multicall batch, and the batches
already handed to the hypervisor. -/
structure MMState where
  mem : Nat → Nat
  queue : List (Nat × Nat)
  submitted : List (List (Nat × Nat))

/-- xen_extend_mmu_update: append one mmu_update record to the open
batch. -/
def xen_extend_mmu_update (s : MMState) (r : Nat × Nat) : MMState :=
  { s with queue := s.queue ++ [r] }

/-- xen_mc_issue: hand the open batch to the hypervisor (lazy-MMU mode
only delays the moment this happens; the model submits eagerly). -/
def xen_mc_issue (s : MMState) : MMState :=
  { mem := s.mem, queue := [], submitted := s.submitted ++ [s.queue] }

/-- xen_set_pmd_hyper: batch an mmu_update for the entry's machine
address and issue. -/
def xen_set_pmd_hyper (cfg : MMCfg) (ptr val : Nat) (s : MMState) : MMState :=
  xen_mc_issue (xen_extend_mmu_update s (cfg.machOf ptr, val))

/-- xen_set_pmd: unpinned containing page → plain direct store;
otherwise the hypervisor update path. -/
def xen_set_pmd (cfg : MMCfg) (ptr val : Nat) (s : MMState) : MMState :=
  if cfg.pinnedPage (cfg.pageOf ptr) = false then
    { s with mem := upd s.mem ptr val }
  else
    xen_set_pmd_hyper cfg ptr val s

/-- xen_set_pud_hyper, same shape as the pmd one. -/
def xen_set_pud_hyper (cfg : MMCfg) (ptr val : Nat) (s : MMState) : MMState :=
  xen_mc_issue (xen_extend_mmu_update s (cfg.machOf ptr, val))

/-- xen_set_pud: unpinned containing page → plain direct store;
otherwise the hypervisor update path. -/
def xen_set_pud (cfg : MMCfg) (ptr val : Nat) (s : MMState) : MMState :=
  if cfg.pinnedPage (cfg.pageOf ptr) = false then
    { s with mem := upd s.mem ptr val }
  else
    xen_set_pud_hyper cfg ptr val s

/-- __xen_set_pgd_hyper: batch an mmu_update for a pgd entry without
issuing. -/
def __xen_set_pgd_hyper (cfg : MMCfg) (ptr val : Nat) (s : MMState) : MMState :=
  xen_extend_mmu_update s (cfg.machOf ptr, val)

/-- xen_set_pgd: unpinned → direct store to the entry and, when a user
pgd is attached, to its paired user entry; pinned → batch the kernel
and (if present) user updates together and issue. -/
def xen_set_pgd (cfg : MMCfg) (ptr val : Nat) (s : MMState) : MMState :=
  let user_ptr := cfg.userPgd ptr
  if cfg.pinnedPage (cfg.pageOf ptr) = false then
    match user_ptr with
    | some u => { s with mem := upd (upd s.mem ptr val) u val }
    | none => { s with mem := upd s.mem ptr val }
  else
    xen_mc_issue (match user_ptr with
      | some u => __xen_set_pgd_hyper cfg u val (__xen_set_pgd_hyper cfg ptr val s)
      | none => __xen_set_pgd_hyper cfg ptr val s)

/-- C10: when the containing page is not pinned, xen_set_pmd,
xen_set_pud and xen_set_pgd perform a plain direct store (for
xen_set_pgd also to the paired user pgd entry when one exists),
leaving the batch queue and the submitted hypercalls untouched; when
it is pinned, memory is untouched and the entry updates go to the
hypervisor as mmu_update records of one issued batch. Nothing else is
modified in either case: the full resulting state is exactly the one
written here. -/
theorem claim_C10_setters_direct_or_hyper (cfg : MMCfg) (ptr val : Nat) (s : MMState) :
    xen_set_pmd cfg ptr val s =
      (if cfg.pinnedPage (cfg.pageOf ptr) = false then
        { s with mem := upd s.mem ptr val }
      else
        { mem := s.mem, queue := [],
          submitted := s.submitted ++ [s.queue ++ [(cfg.machOf ptr, val)]] }) ∧
    xen_set_pud cfg ptr val s =
      (if cfg.pinnedPage (cfg.pageOf ptr) = false then
        { s with mem := upd s.mem ptr val }
      else
        { mem := s.mem, queue := [],
          submitted := s.submitted ++ [s.queue ++ [(cfg.machOf ptr, val)]] }) ∧
    xen_set_pgd cfg ptr val s =
      (if cfg.pinnedPage (cfg.pageOf ptr) = false then
        { s with mem :=
            match cfg.userPgd ptr with
            | some u => upd (upd s.mem ptr val) u val
            | none => upd s.mem ptr val }
      else
        { mem := s.mem, queue := [],
          submitted := s.submitted ++ [s.queue ++
            ((cfg.machOf ptr, val) ::
              (match cfg.userPgd ptr with
               | some u => [(cfg.machOf u, val)]
               | none => []))] }) := by
  refine ⟨?_, ?_, ?_⟩
  · unfold xen_set_pmd xen_set_pmd_hyper xen_extend_mmu_update xen_mc_issue
    split
    · rfl
    · rfl
  · unfold xen_set_pud xen_set_pud_hyper xen_extend_mmu_update xen_mc_issue
    split
    · rfl
    · rfl
  · unfold xen_set_pgd __xen_set_pgd_hyper xen_extend_mmu_update xen_mc_issue
    split
    · cases cfg.userPgd ptr with
      | none => rfl
      | some u => rfl
    · cases cfg.userPgd ptr with
      | none => rfl
      | some u => simp [List.append_assoc]

/-- Thread-local state of one in-flight alloc_p2m call: a program
counter plus the local variables mid, mid_mfn and p2m of the source.
pc 0: about to read p2m_top[topidx]; pc 1: about to allocate the mid
page; pc 2: about to cmpxchg it into p2m_top[topidx]; pc 3: about to
read p2m_top_mfn_p[topidx] and check the BUG_ON; pc 4: about to
allocate the mid mfn page; pc 5: about to cmpxchg its mfn into
p2m_top_mfn[topidx]; pc 6: about to read p2m_top[topidx][mididx];
pc 7: about to allocate the leaf; pc 8: about to cmpxchg it into
mid[mididx] through the LOCAL mid pointer; pc 9: returned true;
pc 10: returned false. -/
structure ThreadSt where
  pc : Nat
  midL : Nat
  midMfnL : Nat
  p2mL : Nat
deriving DecidableEq, Repr

/-- One atomic step of a thread executing alloc_p2m(pfn) against the
shared state.  Each step performs one shared-memory access of the
source (a read, a cmpxchg, or an allocation — a freshly allocated page
and its p2m_*_init fill are invisible to the other thread until the
cmpxchg publishes it, so allocation+init is one step).  The cmpxchg
in pc 5 and the adjacent p2m_top_mfn_p store are merged into one step:
a run of this coarser model maps to a real interleaving in which the
two accesses happen back to back.  none models a BUG_ON firing. -/
def threadStep (cfg : P2MCfg) (pfn : Nat) (s : P2MState) (t : ThreadSt) :
    Option (P2MState × ThreadSt) :=
  let topidx := p2m_top_index pfn
  let mididx := p2m_mid_index pfn
  match t.pc with
  | 0 =>
    let mid := s.top topidx
    if mid = idMidMissing then some (s, { t with midL := mid, pc := 1 })
    else some (s, { t with midL := mid, pc := 3 })
  | 1 =>
    match alloc_p2m_page cfg s with
    | (none, s1) => some (s1, { t with pc := 10 })
    | (some m, s1) =>
      some ({ s1 with midH := updPage s1.midH m (fun _ => idMissing) },
            { t with midL := m, pc := 2 })
  | 2 =>
    if s.top topidx = idMidMissing then
      some ({ s with top := upd s.top topidx t.midL }, { t with pc := 3 })
    else
      some (free_p2m_page s t.midL, { t with pc := 3 })
  | 3 =>
    let midMfn := s.topMfnP topidx
    if cfg.virtToMfn midMfn ≠ s.topMfn topidx then none
    else if midMfn = idMidMissingMfn then
      some (s, { t with midMfnL := midMfn, pc := 4 })
    else
      some (s, { t with midMfnL := midMfn, pc := 6 })
  | 4 =>
    match alloc_p2m_page cfg s with
    | (none, s1) => some (s1, { t with pc := 10 })
    | (some m, s1) =>
      some ({ s1 with midMfnH := updPage s1.midMfnH m (fun _ => cfg.virtToMfn idMissing) },
            { t with midMfnL := m, pc := 5 })
  | 5 =>
    if s.topMfn topidx = cfg.virtToMfn idMidMissingMfn then
      some ({ s with topMfn := upd s.topMfn topidx (cfg.virtToMfn t.midMfnL),
                     topMfnP := upd s.topMfnP topidx t.midMfnL }, { t with pc := 6 })
    else
      some (free_p2m_page s t.midMfnL, { t with pc := 6 })
  | 6 =>
    if s.midH (s.top topidx) mididx = idMissing then some (s, { t with pc := 7 })
    else some (s, { t with pc := 9 })
  | 7 =>
    match alloc_p2m_page cfg s with
    | (none, s1) => some (s1, { t with pc := 10 })
    | (some p, s1) =>
      some ({ s1 with leafH := updPage s1.leafH p (fun _ => INVALID_P2M_ENTRY) },
            { t with p2mL := p, pc := 8 })
  | 8 =>
    if s.midH t.midL mididx = idMissing then
      some ({ s with midH := updEntry s.midH t.midL mididx t.p2mL,
                     midMfnH := updEntry s.midMfnH t.midMfnL mididx
                       (cfg.virtToMfn t.p2mL) }, { t with pc := 9 })
    else
      some (free_p2m_page s t.p2mL, { t with pc := 9 })
  | _ => some (s, t)

/-- Two threads A and B over one shared p2m state. -/
structure SysSt where
  shared : P2MState
  ta : ThreadSt
  tb : ThreadSt

/-- One scheduler step: true runs thread A, false runs thread B. -/
def sysStep (cfg : P2MCfg) (pfn : Nat) (σ : SysSt) (who : Bool) : Option SysSt :=
  if who then
    match threadStep cfg pfn σ.shared σ.ta with
    | none => none
    | some (s1, t1) => some { σ with shared := s1, ta := t1 }
  else
    match threadStep cfg pfn σ.shared σ.tb with
    | none => none
    | some (s1, t1) => some { σ with shared := s1, tb := t1 }

/-- Run a schedule (a list of scheduler choices). -/
def runSched (cfg : P2MCfg) (pfn : Nat) : List Bool → SysSt → Option SysSt
  | [], σ => some σ
  | w :: ws, σ =>
    match sysStep cfg pfn σ w with
    | none => none
    | some σ1 => runSched cfg pfn ws σ1

/-- The interleaving that exhibits the lost-CAS leak: both threads
read a missing mid and allocate (A gets page 1, B page 2), A wins the
top-level cmpxchg and installs its mirror page 3, B then loses the
cmpxchg and frees page 2 while its local mid still points at it, both
reach the leaf stage, B allocates leaf 4 and cmpxchg's it into the
freed page 2, A allocates leaf 5 and installs it in the live page 1. -/
def c6sched : List Bool :=
  [true, false, true, false, true, true, true, true,
   false, false, false, false, false, true, true, true]

/-- Both threads start at pc 0 on the boot-time p2m state. -/
def c6init : SysSt where
  shared := initState cfg0 512
  ta := { pc := 0, midL := 0, midMfnL := 0, p2mL := 0 }
  tb := { pc := 0, midL := 0, midMfnL := 0, p2mL := 0 }

/-- The state the exhibiting schedule ends in. -/
def c6final : SysSt := (runSched cfg0 0 c6sched c6init).getD c6init

/-- C6: refuted — the code has a bug.  On the interleaving c6sched of
two concurrent alloc_p2m(0) calls, thread B loses the top-level
cmpxchg and frees its mid page 2, but its local mid pointer still
points at the freed page (the source never re-reads p2m_top[topidx]
after a lost cmpxchg).  B's leaf-stage cmpxchg then succeeds INSIDE
the freed page 2, so B's leaf page 4 is installed nowhere reachable:
both calls return true (pc 9), the surviving tree routes pfn 0 to A's
leaf 5, page 4 is allocated (4 < nextPage) yet is not in the freed
list ([2] — only B's mid page was freed) and no in-range pfn's mid
slot reaches it.  This contradicts the claim (and the source's own
comment) that the loser "simply frees the page it allocated and uses
the one that's there" with no memory leaked. -/
theorem claim_C6_lost_cas_leaks_leaf :
    (runSched cfg0 0 c6sched c6init).isSome = true ∧
    c6final.ta.pc = 9 ∧ c6final.tb.pc = 9 ∧
    c6final.shared.top (p2m_top_index 0) = 1 ∧
    c6final.shared.midH 1 (p2m_mid_index 0) = 5 ∧
    c6final.tb.p2mL = 4 ∧
    c6final.shared.freed = [2] ∧
    c6final.shared.midH 2 (p2m_mid_index 0) = 4 ∧
    4 < c6final.shared.nextPage ∧
    (∀ pfn, pfn < MAX_P2M_PFN →
      c6final.shared.midH (c6final.shared.top (p2m_top_index pfn))
        (p2m_mid_index pfn) ≠ 4) := by
  have htop0 : c6final.shared.top 0 = 1 := by decide
  have htop : ∀ t, t < 512 → (t = 0 ∨ c6final.shared.top t = 0) := by decide
  have hmid1 : ∀ i, i < 512 → c6final.shared.midH 1 i ≠ 4 := by decide
  have hmid0 : ∀ i, i < 512 → c6final.shared.midH 0 i = 0 := by decide
  refine ⟨by decide, by decide, by decide, by decide, by decide, by decide,
    by decide, by decide, by decide, ?_⟩
  intro pfn h
  have ht : p2m_top_index pfn < 512 := by
    simp only [p2m_top_index, P2M_MID_PER_PAGE, P2M_PER_PAGE, PAGE_SIZE] at *
    simp only [MAX_P2M_PFN, P2M_TOP_PER_PAGE, P2M_MID_PER_PAGE, P2M_PER_PAGE,
      PAGE_SIZE] at h
    omega
  have hm : p2m_mid_index pfn < 512 := by
    simp only [p2m_mid_index, P2M_MID_PER_PAGE, P2M_PER_PAGE, PAGE_SIZE]
    omega
  rcases htop (p2m_top_index pfn) ht with h0 | h0
  · rw [h0, htop0]
    exact hmid1 _ hm
  · rw [h0, hmid0 _ hm]
    decide
